import Mathlib

/-!
Verification development for the engine adapter and sample-bank layer of a
browser live-coding music workspace.

The definitions below are a shallow embedding of the TypeScript source
(`src/lib/strudel-engine.ts`, `src/lib/sample-pack.ts` and the richer engine
variant): pure helper functions are translated directly, JavaScript `Map`s
become insertion-ordered association lists, promises become numeric tokens,
and the `Date.now()` clock and the external sample-loading call are passed in
as explicit parameters.  Character-level operations model the ASCII fragment
of the JavaScript string primitives, which is the fragment exercised by the
program (ids, labels and messages are ASCII).

Field and function names ending in the word written `Pfx` here are named with
the full word in the TypeScript source (`bankPrefix`,
`normaliseSampleBankPrefix`); the shortened spelling is used uniformly in
this file.
-/

/-- Character class `[a-z0-9]`, the characters kept by the id slug regex
`[^a-z0-9]+` of `normaliseSampleBankId`. -/
def isSlugChar (c : Char) : Bool :=
  (97 ≤ c.toNat && c.toNat ≤ 122) || (48 ≤ c.toNat && c.toNat ≤ 57)

/-- Character class `[a-zA-Z0-9]` used by the bank-prefix normaliser and the
prefix inference helper. -/
def isAlnumChar (c : Char) : Bool :=
  (48 ≤ c.toNat && c.toNat ≤ 57) || (65 ≤ c.toNat && c.toNat ≤ 90) ||
    (97 ≤ c.toNat && c.toNat ≤ 122)

/-- ASCII decimal digit `[0-9]`. -/
def isDigitChar (c : Char) : Bool :=
  48 ≤ c.toNat && c.toNat ≤ 57

/-- Whitespace recognised by `String.prototype.trim` (ASCII fragment:
tab, LF, VT, FF, CR, space). -/
def jsIsWs (c : Char) : Bool :=
  c.toNat = 9 || c.toNat = 10 || c.toNat = 11 || c.toNat = 12 ||
    c.toNat = 13 || c.toNat = 32

/-- ASCII `toLowerCase` on one character. -/
def jsToLower (c : Char) : Char :=
  if 65 ≤ c.toNat && c.toNat ≤ 90 then Char.ofNat (c.toNat + 32) else c

/-- ASCII `toUpperCase` on one character. -/
def jsToUpper (c : Char) : Char :=
  if 97 ≤ c.toNat && c.toNat ≤ 122 then Char.ofNat (c.toNat - 32) else c

/-- The single dash character test used when stripping and collapsing the
dashes introduced by the slug regex. -/
def isDashChar (c : Char) : Bool := c = '-'

/-- Drop the characters satisfying `p` from both ends of a character list.
`stripEnds jsIsWs` is `String.prototype.trim`; `stripEnds isDashChar` is the
replacement `/^-+|-+$/g → ''`. -/
def stripEnds (p : Char → Bool) (l : List Char) : List Char :=
  ((l.dropWhile p).reverse.dropWhile p).reverse

/-- Lowercase a character and then replace it by `'-'` unless it matches
`[a-z0-9]`: the composition of `toLowerCase` with the replacement
`/[^a-z0-9]+/g → '-'` at the level of single characters. -/
def lowDash (c : Char) : Char :=
  if isSlugChar (jsToLower c) then jsToLower c else '-'

/-- Collapse consecutive `'-'` characters into one, so that `map lowDash`
followed by `squeezeDashes` realises the run-replacement
`/[^a-z0-9]+/g → '-'`. -/
def squeezeDashes : List Char → List Char
  | [] => []
  | c :: rest =>
    let r := squeezeDashes rest
    if c = '-' ∧ r.head? = some '-' then r else c :: r

/-- Character list produced by `normaliseSampleBankId` before the fallback:
trim, lowercase, replace runs of `[^a-z0-9]` by `'-'`, strip edge dashes. -/
def slugChars (l : List Char) : List Char :=
  stripEnds isDashChar (squeezeDashes ((stripEnds jsIsWs l).map lowDash))

/-- Embeds `normaliseSampleBankId` from `strudel-engine.ts`: slugify the
value and fall back to `"sample-bank"` when the slug is empty. -/
def normaliseSampleBankId (value : String) : String :=
  let s := slugChars value.data
  if s.isEmpty then "sample-bank" else String.mk s

/-- Decimal digits of `n` given enough fuel; digits are emitted most
significant first.  Structural recursion on the fuel keeps the definition
kernel-reducible. -/
def decimalReprAux : Nat → Nat → List Char
  | 0, _ => []
  | fuel + 1, n => if n = 0 then [] else decimalReprAux fuel (n / 10) ++ [Nat.digitChar (n % 10)]

/-- Decimal character rendering of a natural number, as produced by a
JavaScript template interpolation of a nonnegative integer. -/
def decimalRepr (n : Nat) : List Char :=
  if n = 0 then ['0'] else decimalReprAux n n

/-- Decimal string rendering of a natural number. -/
def decimalString (n : Nat) : String :=
  String.mk (decimalRepr n)

/- Basic facts about the decimal rendering. -/

theorem decimalReprAux_fuel {fuel fuel' n : Nat} (h : n ≤ fuel) (h' : n ≤ fuel') :
    decimalReprAux fuel n = decimalReprAux fuel' n := by
  induction fuel generalizing fuel' n with
  | zero =>
    interval_cases n
    cases fuel' <;> simp [decimalReprAux]
  | succ fuel ih =>
    cases fuel' with
    | zero =>
      interval_cases n
      simp [decimalReprAux]
    | succ fuel' =>
      by_cases hn : n = 0
      · simp [decimalReprAux, hn]
      · have hlt : n / 10 < n := Nat.div_lt_self (Nat.pos_of_ne_zero hn) (by omega)
        simp only [decimalReprAux, if_neg hn]
        have hrw := @ih fuel' (n / 10) (by omega) (by omega)
        rw [hrw]

theorem decimalReprAux_ne_nil {fuel n : Nat} (hn : n ≠ 0) (h : n ≤ fuel) :
    decimalReprAux fuel n ≠ [] := by
  cases fuel with
  | zero => omega
  | succ fuel => simp [decimalReprAux, hn]

theorem decimalRepr_ne_nil (n : Nat) : decimalRepr n ≠ [] := by
  by_cases hn : n = 0
  · simp [decimalRepr, hn]
  · simpa [decimalRepr, hn] using decimalReprAux_ne_nil hn (Nat.le_refl n)

theorem digitChar_isDigit : ∀ d < 10, isDigitChar (Nat.digitChar d) = true := by decide

theorem decimalReprAux_digits {fuel n : Nat} :
    ∀ c ∈ decimalReprAux fuel n, isDigitChar c = true := by
  induction fuel generalizing n with
  | zero => simp [decimalReprAux]
  | succ fuel ih =>
    intro c hc
    by_cases hn : n = 0
    · simp [decimalReprAux, hn] at hc
    · simp only [decimalReprAux, if_neg hn, List.mem_append, List.mem_singleton] at hc
      rcases hc with hc | hc
      · exact ih c hc
      · subst hc
        exact digitChar_isDigit (n % 10) (Nat.mod_lt n (by omega))

theorem decimalRepr_digits (n : Nat) : ∀ c ∈ decimalRepr n, isDigitChar c = true := by
  by_cases hn : n = 0
  · subst hn
    decide
  · simpa [decimalRepr, hn] using decimalReprAux_digits

/-- Numeric value of a decimal character list; left inverse of
`decimalRepr`. -/
def decimalVal (l : List Char) : Nat :=
  l.foldl (fun acc c => acc * 10 + (c.toNat - 48)) 0

theorem decimalVal_append_digit (l : List Char) (c : Char) :
    decimalVal (l ++ [c]) = decimalVal l * 10 + (c.toNat - 48) := by
  simp [decimalVal, List.foldl_append]

theorem digitChar_toNat : ∀ d < 10, (Nat.digitChar d).toNat = 48 + d := by decide

theorem decimalVal_decimalReprAux {fuel n : Nat} (h : n ≤ fuel) :
    decimalVal (decimalReprAux fuel n) = n := by
  induction fuel generalizing n with
  | zero =>
    interval_cases n
    simp [decimalReprAux, decimalVal]
  | succ fuel ih =>
    by_cases hn : n = 0
    · simp [decimalReprAux, hn, decimalVal]
    · have hlt : n / 10 < n := Nat.div_lt_self (Nat.pos_of_ne_zero hn) (by omega)
      have hmod : n % 10 < 10 := Nat.mod_lt n (by omega)
      simp only [decimalReprAux, if_neg hn]
      rw [decimalVal_append_digit, ih (by omega), digitChar_toNat (n % 10) hmod]
      omega

theorem decimalVal_decimalRepr (n : Nat) : decimalVal (decimalRepr n) = n := by
  by_cases hn : n = 0
  · subst hn
    decide
  · simpa [decimalRepr, hn] using decimalVal_decimalReprAux (Nat.le_refl n)

theorem decimalRepr_injective {m n : Nat} (h : decimalRepr m = decimalRepr n) : m = n := by
  have := congrArg decimalVal h
  rwa [decimalVal_decimalRepr, decimalVal_decimalRepr] at this

/- Interaction of the slug pipeline with an all-digit suffix.  These lemmas
show that `normaliseSampleBankId (baseId ++ "-" ++ digits)` always ends in
the digit block unchanged, which makes distinct numeric suffixes produce
distinct candidate ids. -/

theorem dropWhile_cons_false {p : Char → Bool} {d : Char} {l : List Char}
    (h : p d = false) : (d :: l).dropWhile p = d :: l := by
  simp [List.dropWhile, h]

theorem dropWhile_append_fix {p : Char → Bool} {D : List Char} (X : List Char)
    (h : D.dropWhile p = D) : (X ++ D).dropWhile p = X.dropWhile p ++ D := by
  induction X with
  | nil => simpa using h
  | cons c X ih =>
    by_cases hc : p c
    · simp [List.dropWhile, hc, ih]
    · simp [List.dropWhile, hc]

theorem dropWhile_append_all_false {p : Char → Bool} {A : List Char} (R : List Char)
    (hne : A ≠ []) (hall : ∀ c ∈ A, p c = false) : (A ++ R).dropWhile p = A ++ R := by
  cases A with
  | nil => exact absurd rfl hne
  | cons a A' =>
    rw [List.cons_append]
    exact dropWhile_cons_false (hall a (by simp))

theorem stripEnds_append {p : Char → Bool} {D : List Char} (X : List Char)
    (hne : D ≠ []) (hall : ∀ c ∈ D, p c = false) :
    stripEnds p (X ++ D) = X.dropWhile p ++ D := by
  obtain ⟨d, D', rfl⟩ : ∃ d D', D = d :: D' := by
    cases D with
    | nil => exact absurd rfl hne
    | cons d D' => exact ⟨d, D', rfl⟩
  have hdrop : (d :: D').dropWhile p = d :: D' :=
    dropWhile_cons_false (hall d (by simp))
  unfold stripEnds
  rw [dropWhile_append_fix X hdrop, List.reverse_append]
  rw [dropWhile_append_all_false _ (by simp) (fun c hc => hall c (by
    rw [List.mem_reverse] at hc
    exact hc))]
  simp

theorem squeezeDashes_cons (c : Char) (rest : List Char) :
    squeezeDashes (c :: rest) =
      if c = '-' ∧ (squeezeDashes rest).head? = some '-' then squeezeDashes rest
      else c :: squeezeDashes rest := rfl

theorem squeezeDashes_no_dash {D : List Char} (h : ∀ c ∈ D, c ≠ '-') :
    squeezeDashes D = D := by
  induction D with
  | nil => rfl
  | cons c rest ih =>
    rw [squeezeDashes_cons, ih (fun x hx => h x (by simp [hx])), if_neg]
    intro hcontra
    exact h c (by simp) hcontra.1

theorem squeezeDashes_append {D : List Char} (X : List Char)
    (hD : squeezeDashes D = D) (hh : D.head? ≠ some '-') :
    squeezeDashes (X ++ D) = squeezeDashes X ++ D := by
  induction X with
  | nil => simpa using hD
  | cons c X ih =>
    rw [List.cons_append, squeezeDashes_cons, squeezeDashes_cons, ih]
    cases hX : squeezeDashes X with
    | nil =>
      have h1 : ¬(c = '-' ∧ (([] : List Char) ++ D).head? = some '-') := by
        intro hcontra
        exact hh (by simpa using hcontra.2)
      have h2 : ¬(c = '-' ∧ ([] : List Char).head? = some '-') := by simp
      rw [if_neg h1, if_neg h2]
      simp
    | cons y t =>
      by_cases hcond : c = '-' ∧ y = '-'
      · rw [if_pos ⟨hcond.1, by simp [hcond.2]⟩, if_pos ⟨hcond.1, by simp [hcond.2]⟩]
      · have h1 : ¬(c = '-' ∧ (y :: t ++ D).head? = some '-') := by
          simp only [List.cons_append, List.head?_cons, Option.some_inj]
          exact hcond
        have h2 : ¬(c = '-' ∧ (y :: t).head? = some '-') := by
          simp only [List.head?_cons, Option.some_inj]
          exact hcond
        rw [if_neg h1, if_neg h2]
        simp

theorem lowDash_digit {c : Char} (h : isDigitChar c = true) : lowDash c = c := by
  simp only [isDigitChar, Bool.and_eq_true, decide_eq_true_eq] at h
  have hlow : jsToLower c = c := by
    unfold jsToLower
    rw [if_neg]
    simp only [Bool.and_eq_true, decide_eq_true_eq, not_and]
    omega
  unfold lowDash
  rw [hlow, if_pos]
  simp only [isSlugChar, Bool.or_eq_true, Bool.and_eq_true, decide_eq_true_eq]
  omega

theorem digit_ne_dash {c : Char} (h : isDigitChar c = true) : c ≠ '-' := by
  simp only [isDigitChar, Bool.and_eq_true, decide_eq_true_eq] at h
  intro hc
  subst hc
  simp at h

theorem digit_not_ws {c : Char} (h : isDigitChar c = true) : jsIsWs c = false := by
  simp only [isDigitChar, Bool.and_eq_true, decide_eq_true_eq] at h
  simp only [jsIsWs, Bool.or_eq_false_iff, decide_eq_false_iff_not]
  omega

theorem digit_not_dashChar {c : Char} (h : isDigitChar c = true) : isDashChar c = false := by
  simp only [isDashChar, decide_eq_false_iff_not]
  exact digit_ne_dash h

theorem map_lowDash_digits {D : List Char} (h : ∀ c ∈ D, isDigitChar c = true) :
    D.map lowDash = D := by
  induction D with
  | nil => rfl
  | cons c rest ih =>
    rw [List.map_cons, lowDash_digit (h c (by simp)), ih (fun x hx => h x (by simp [hx]))]

/-- Prefix of the slug of `baseId ++ "-" ++ digits` that does not depend on
the digit block. -/
def slugDashPre (B : List Char) : List Char :=
  (squeezeDashes ((B.dropWhile jsIsWs).map lowDash ++ ['-'])).dropWhile isDashChar

theorem slugChars_candidate (B : List Char) (n : Nat) :
    slugChars (B ++ '-' :: decimalRepr n) = slugDashPre B ++ decimalRepr n := by
  have hdig := decimalRepr_digits n
  have hne := decimalRepr_ne_nil n
  obtain ⟨d, D', hD⟩ : ∃ d D', decimalRepr n = d :: D' := by
    cases hcase : decimalRepr n with
    | nil => exact absurd hcase hne
    | cons d D' => exact ⟨d, D', rfl⟩
  unfold slugChars
  have h1 : stripEnds jsIsWs (B ++ '-' :: decimalRepr n) =
      B.dropWhile jsIsWs ++ '-' :: decimalRepr n := by
    have : ∀ c ∈ '-' :: decimalRepr n, jsIsWs c = false := by
      intro c hc
      rcases List.mem_cons.mp hc with hc | hc
      · subst hc; decide
      · exact digit_not_ws (hdig c hc)
    exact stripEnds_append B (by simp) this
  rw [h1, List.map_append, List.map_cons]
  have hld : lowDash '-' = '-' := by decide
  rw [hld, map_lowDash_digits hdig]
  have h2 : (B.dropWhile jsIsWs).map lowDash ++ '-' :: decimalRepr n =
      ((B.dropWhile jsIsWs).map lowDash ++ ['-']) ++ decimalRepr n := by
    simp
  rw [h2]
  have h3 : squeezeDashes (((B.dropWhile jsIsWs).map lowDash ++ ['-']) ++ decimalRepr n) =
      squeezeDashes ((B.dropWhile jsIsWs).map lowDash ++ ['-']) ++ decimalRepr n := by
    apply squeezeDashes_append
    · exact squeezeDashes_no_dash (fun c hc => digit_ne_dash (hdig c hc))
    · rw [hD]
      simp only [List.head?_cons, ne_eq, Option.some_inj]
      exact digit_ne_dash (hdig d (by rw [hD]; simp))
  rw [h3]
  exact stripEnds_append _ hne (fun c hc => digit_not_dashChar (hdig c hc))

theorem string_data_append (a b : String) : (a ++ b).data = a.data ++ b.data := by
  cases a; cases b; rfl

theorem string_mk_inj {a b : List Char} (h : String.mk a = String.mk b) : a = b := by
  exact congrArg String.data h

/-- Candidate id tried by the suffix loop of `registerSampleBank`:
`normaliseSampleBankId` of the template string `baseId ++ "-" ++ suffix`. -/
def suffixCandidate (baseId : String) (n : Nat) : String :=
  normaliseSampleBankId (baseId ++ "-" ++ decimalString n)

theorem suffixCandidate_data (baseId : String) (n : Nat) :
    (baseId ++ "-" ++ decimalString n).data = baseId.data ++ '-' :: decimalRepr n := by
  rw [string_data_append, string_data_append]
  simp [decimalString]

theorem suffixCandidate_eq (baseId : String) (n : Nat) :
    suffixCandidate baseId n = String.mk (slugDashPre baseId.data ++ decimalRepr n) := by
  unfold suffixCandidate normaliseSampleBankId
  rw [suffixCandidate_data, slugChars_candidate]
  have hne : (slugDashPre baseId.data ++ decimalRepr n).isEmpty = false := by
    simp [List.isEmpty_iff, decimalRepr_ne_nil n]
  simp [hne]

theorem suffixCandidate_inj {baseId : String} {m n : Nat}
    (h : suffixCandidate baseId m = suffixCandidate baseId n) : m = n := by
  rw [suffixCandidate_eq, suffixCandidate_eq] at h
  exact decimalRepr_injective (List.append_cancel_left (string_mk_inj h))

theorem normaliseSampleBankId_ne_empty (value : String) :
    normaliseSampleBankId value ≠ "" := by
  unfold normaliseSampleBankId
  by_cases h : (slugChars value.data).isEmpty
  · simp [h]
  · simp only [h, if_neg Bool.false_ne_true]
    intro hcontra
    have hdata : slugChars value.data = [] := congrArg String.data hcontra
    rw [List.isEmpty_iff] at h
    exact h hdata

/- JavaScript `Map` objects are modelled as insertion-ordered association
lists: `get`/`has` find the entry, `set` updates an existing key in place or
appends a fresh one at the end, `delete` removes the key.  `Array.from(map.values())`
is `m.map Prod.snd`. -/

def mapGet {α : Type} : List (String × α) → String → Option α
  | [], _ => none
  | (k', v) :: rest, k => if k' = k then some v else mapGet rest k

def mapHas {α : Type} (m : List (String × α)) (k : String) : Bool :=
  (mapGet m k).isSome

def mapSet {α : Type} (m : List (String × α)) (k : String) (v : α) : List (String × α) :=
  if mapHas m k then m.map (fun e => if e.1 = k then (k, v) else e) else m ++ [(k, v)]

def mapDelete {α : Type} (m : List (String × α)) (k : String) : List (String × α) :=
  m.filter (fun e => e.1 != k)

theorem mapGet_append_some {α : Type} {m : List (String × α)} {k : String} {v : α}
    (m' : List (String × α)) (h : mapGet m k = some v) : mapGet (m ++ m') k = some v := by
  induction m with
  | nil => simp [mapGet] at h
  | cons e rest ih =>
    obtain ⟨k', v'⟩ := e
    by_cases hk : k' = k
    · simpa [mapGet, hk] using h
    · simp only [List.cons_append, mapGet, if_neg hk] at h ⊢
      exact ih h

theorem mapGet_append_none {α : Type} {m : List (String × α)} {k : String}
    (m' : List (String × α)) (h : mapGet m k = none) :
    mapGet (m ++ m') k = mapGet m' k := by
  induction m with
  | nil => simp
  | cons e rest ih =>
    obtain ⟨k', v'⟩ := e
    by_cases hk : k' = k
    · simp [mapGet, hk] at h
    · simp [mapGet, hk] at h ⊢
      exact ih h

theorem mapGet_replace_self {α : Type} {m : List (String × α)} {k : String} {v : α}
    (h : mapHas m k = true) :
    mapGet (m.map (fun e => if e.1 = k then (k, v) else e)) k = some v := by
  induction m with
  | nil => simp [mapHas, mapGet] at h
  | cons e rest ih =>
    obtain ⟨k', v'⟩ := e
    by_cases hk : k' = k
    · subst hk
      simp only [List.map_cons]
      simp [mapGet]
    · simp only [List.map_cons]
      rw [if_neg (by simpa using hk)]
      simp only [mapGet, if_neg hk]
      apply ih
      simpa [mapHas, mapGet, hk] using h

theorem mapGet_replace_ne {α : Type} (m : List (String × α)) {k k' : String} (v : α)
    (h : k' ≠ k) :
    mapGet (m.map (fun e => if e.1 = k then (k, v) else e)) k' = mapGet m k' := by
  induction m with
  | nil => simp [mapGet]
  | cons e rest ih =>
    obtain ⟨ek, ev⟩ := e
    by_cases hk : ek = k
    · subst hk
      simp only [List.map_cons, if_pos rfl]
      rw [mapGet, mapGet, if_neg (fun hc => h hc.symm), if_neg (fun hc => h hc.symm)]
      exact ih
    · simp only [List.map_cons]
      rw [if_neg (by simpa using hk)]
      rw [mapGet, mapGet]
      by_cases hek : ek = k'
      · simp [hek]
      · rw [if_neg hek, if_neg hek]
        exact ih

theorem mapGet_set_self {α : Type} (m : List (String × α)) (k : String) (v : α) :
    mapGet (mapSet m k v) k = some v := by
  unfold mapSet
  by_cases h : mapHas m k
  · rw [if_pos h]
    exact mapGet_replace_self h
  · rw [if_neg h]
    have hnone : mapGet m k = none := by
      cases hc : mapGet m k
      · rfl
      · exact absurd (by simp [mapHas, hc]) h
    rw [mapGet_append_none _ hnone]
    simp [mapGet]

theorem mapGet_set_ne {α : Type} (m : List (String × α)) {k k' : String} (v : α)
    (h : k' ≠ k) : mapGet (mapSet m k v) k' = mapGet m k' := by
  unfold mapSet
  by_cases hh : mapHas m k
  · rw [if_pos hh]
    exact mapGet_replace_ne m v h
  · rw [if_neg hh]
    cases hc : mapGet m k'
    · rw [mapGet_append_none _ hc]
      show (if k = k' then some v else mapGet ([] : List (String × α)) k') = none
      rw [if_neg (fun hk => h hk.symm)]
      rfl
    · exact mapGet_append_some _ hc

theorem mapSet_length_of_has {α : Type} {m : List (String × α)} {k : String} (v : α)
    (h : mapHas m k = true) : (mapSet m k v).length = m.length := by
  unfold mapSet
  rw [if_pos h, List.length_map]

theorem mapGet_delete_self {α : Type} (m : List (String × α)) (k : String) :
    mapGet (mapDelete m k) k = none := by
  induction m with
  | nil => rfl
  | cons e rest ih =>
    obtain ⟨k', v'⟩ := e
    simp only [mapDelete, List.filter_cons] at ih ⊢
    by_cases hk : k' = k
    · subst hk
      rw [if_neg (by simp)]
      exact ih
    · rw [if_pos (by simp [hk])]
      simp only [mapGet, if_neg hk]
      exact ih

theorem mapHas_mem_keys {α : Type} {m : List (String × α)} {k : String}
    (h : mapHas m k = true) : k ∈ m.map Prod.fst := by
  induction m with
  | nil => simp [mapHas, mapGet] at h
  | cons e rest ih =>
    obtain ⟨k', v'⟩ := e
    by_cases hk : k' = k
    · simp [hk]
    · simp only [List.map_cons, List.mem_cons]
      right
      exact ih (by simpa [mapHas, mapGet, hk] using h)

/-- If `f` is injective, a list of length at most `n` cannot contain all of
`f 0, …, f n`. -/
theorem exists_not_mem_of_injective :
    ∀ (n : Nat) (K : List String) (f : Nat → String),
      K.length ≤ n → (∀ i j, f i = f j → i = j) → ∃ i, i ≤ n ∧ f i ∉ K := by
  intro n
  induction n with
  | zero =>
    intro K f hK _
    have hnil : K = [] := List.length_eq_zero.mp (Nat.le_antisymm hK (Nat.zero_le _))
    exact ⟨0, Nat.le_refl 0, by simp [hnil]⟩
  | succ n ih =>
    intro K f hK hinj
    by_cases h0 : f 0 ∈ K
    · have hlen : (K.erase (f 0)).length ≤ n := by
        rw [List.length_erase_of_mem h0]
        omega
      have hinj' : ∀ i j, f (i + 1) = f (j + 1) → i = j := by
        intro i j hij
        have := hinj (i + 1) (j + 1) hij
        omega
      obtain ⟨i, hi, hnot⟩ := ih (K.erase (f 0)) (fun j => f (j + 1)) hlen hinj'
      refine ⟨i + 1, by omega, ?_⟩
      intro hmem
      have hne : f (i + 1) ≠ f 0 := fun he => by
        have := hinj (i + 1) 0 he
        omega
      exact hnot ((List.mem_erase_of_ne hne).mpr hmem)
    · exact ⟨0, Nat.zero_le _, h0⟩

/-- The `while` loop of `registerSampleBank` that searches for the first
unused suffixed id, with enough fuel to be total; `findFreeSuffix` supplies
fuel `reg.length + 1`, which always suffices because distinct suffixes give
distinct candidate ids. -/
def findFreeSuffixAux {α : Type} (reg : List (String × α)) (baseId : String) :
    Nat → Nat → Nat
  | 0, n => n
  | fuel + 1, n =>
    if mapHas reg (suffixCandidate baseId n) then findFreeSuffixAux reg baseId fuel (n + 1)
    else n

/-- Suffix chosen by the collision branch of `registerSampleBank`, starting
at `2`. -/
def findFreeSuffix {α : Type} (reg : List (String × α)) (baseId : String) : Nat :=
  findFreeSuffixAux reg baseId (reg.length + 1) 2

theorem findFreeSuffixAux_spec {α : Type} (reg : List (String × α)) (baseId : String) :
    ∀ (fuel start : Nat),
      (∃ i, i < fuel ∧ mapHas reg (suffixCandidate baseId (start + i)) = false) →
      start ≤ findFreeSuffixAux reg baseId fuel start ∧
        mapHas reg (suffixCandidate baseId (findFreeSuffixAux reg baseId fuel start)) = false ∧
        ∀ m, start ≤ m → m < findFreeSuffixAux reg baseId fuel start →
          mapHas reg (suffixCandidate baseId m) = true := by
  intro fuel
  induction fuel with
  | zero =>
    intro start h
    obtain ⟨i, hi, _⟩ := h
    omega
  | succ fuel ih =>
    intro start h
    by_cases hs : mapHas reg (suffixCandidate baseId start)
    · have hex : ∃ i, i < fuel ∧ mapHas reg (suffixCandidate baseId (start + 1 + i)) = false := by
        obtain ⟨i, hi, hfree⟩ := h
        cases i with
        | zero => rw [Nat.add_zero] at hfree; rw [hs] at hfree; cases hfree
        | succ j => exact ⟨j, by omega, by rwa [show start + 1 + j = start + (j + 1) by omega]⟩
      obtain ⟨h1, h2, h3⟩ := ih (start + 1) hex
      simp only [findFreeSuffixAux, if_pos hs]
      refine ⟨by omega, h2, ?_⟩
      intro m hm hmlt
      by_cases hme : m = start
      · subst hme; exact hs
      · exact h3 m (by omega) hmlt
    · simp only [findFreeSuffixAux, if_neg hs]
      refine ⟨Nat.le_refl start, by simpa using hs, ?_⟩
      intro m hm hmlt
      omega

theorem findFreeSuffix_spec {α : Type} (reg : List (String × α)) (baseId : String) :
    2 ≤ findFreeSuffix reg baseId ∧
      mapHas reg (suffixCandidate baseId (findFreeSuffix reg baseId)) = false ∧
      ∀ m, 2 ≤ m → m < findFreeSuffix reg baseId →
        mapHas reg (suffixCandidate baseId m) = true := by
  have hex : ∃ i, i < reg.length + 1 ∧
      mapHas reg (suffixCandidate baseId (2 + i)) = false := by
    obtain ⟨i, hi, hnot⟩ := exists_not_mem_of_injective reg.length (reg.map Prod.fst)
      (fun i => suffixCandidate baseId (2 + i)) (by simp)
      (fun i j hij => by
        have := suffixCandidate_inj hij
        omega)
    refine ⟨i, by omega, ?_⟩
    cases hcase : mapHas reg (suffixCandidate baseId (2 + i))
    · rfl
    · exact absurd (mapHas_mem_keys hcase) hnot
  exact findFreeSuffixAux_spec reg baseId (reg.length + 1) 2 hex

/- Active-range bookkeeping (`strudel-engine.ts`, `addActiveRange` /
`updateActiveLocations` / `clearActiveLocations`).  A `MiniLocation` is the
`[start, end]` character-offset pair delivered by the scheduler. -/

/-- A highlight range `[start, end]`. -/
def MiniLocation : Type := Nat × Nat

instance : DecidableEq MiniLocation := instDecidableEqProd

/-- Embeds `rangesEqual`: two range lists are equal when they have the same
length and agree component-wise at every index. -/
def rangesEqual : List MiniLocation → List MiniLocation → Bool
  | [], [] => true
  | a :: as, b :: bs => a.1 = b.1 && a.2 = b.2 && rangesEqual as bs
  | _, _ => false

theorem rangesEqual_iff {a b : List MiniLocation} : rangesEqual a b = true ↔ a = b := by
  induction a generalizing b with
  | nil =>
    cases b <;> simp [rangesEqual]
  | cons x as ih =>
    cases b with
    | nil => simp [rangesEqual]
    | cons y bs =>
      simp only [rangesEqual, Bool.and_eq_true, decide_eq_true_eq, List.cons.injEq, ih]
      constructor
      · rintro ⟨⟨h1, h2⟩, h3⟩
        exact ⟨Prod.ext h1 h2, h3⟩
      · rintro ⟨h1, h2⟩
        exact ⟨⟨congrArg Prod.fst h1, congrArg Prod.snd h1⟩, h2⟩

/-- Key of a range in the active multiset: the template `start ++ "-" ++ end`. -/
def rangeKey (r : MiniLocation) : String :=
  decimalString r.1 ++ "-" ++ decimalString r.2

/-- One entry of `activeMap`: the canonical key, the range and its reference
count (a JavaScript number, stored here as an integer). -/
structure ActiveEntry where
  key : String
  range : MiniLocation
  count : Int
deriving DecidableEq

/-- The part of the engine state read and written by the active-range
operations: the `activeMap` multiset and the published
`state.activeLocations`. -/
structure ActiveState where
  activeMap : List ActiveEntry
  activeLocations : List MiniLocation
deriving DecidableEq

/-- `activeMap.get(key)` on the entry list. -/
def amGet : List ActiveEntry → String → Option ActiveEntry
  | [], _ => none
  | e :: rest, k => if e.key = k then some e else amGet rest k

/-- `Array.from(this.activeMap.values()).map(entry => entry.range)`. -/
def rangesOf (m : List ActiveEntry) : List MiniLocation :=
  m.map (fun e => e.range)

/-- Embeds `updateActiveLocations`: recompute the range list and publish it
only when it differs element-wise from the current one. -/
def updateActiveLocations (st : ActiveState) : ActiveState :=
  let next := rangesOf st.activeMap
  if rangesEqual next st.activeLocations then st
  else { st with activeLocations := next }

/-- Embeds `addActiveRange` (the increment half): bump the entry for the
range key or insert a fresh entry with count 1, then recompute
`activeLocations`. -/
def addActiveRange (st : ActiveState) (r : MiniLocation) : ActiveState :=
  let key := rangeKey r
  let m :=
    match amGet st.activeMap key with
    | some _ => st.activeMap.map (fun e => if e.key = key then { e with count := e.count + 1 } else e)
    | none => st.activeMap ++ [⟨key, r, 1⟩]
  updateActiveLocations { st with activeMap := m }

/-- Embeds the release closure returned by `addActiveRange`: decrement the
entry for the captured key, delete it when the count drops to zero or below,
and recompute `activeLocations`; a missing key is a no-op. -/
def releaseActiveRange (st : ActiveState) (key : String) : ActiveState :=
  match amGet st.activeMap key with
  | none => st
  | some e =>
    let c := e.count - 1
    let m :=
      if c ≤ 0 then st.activeMap.filter (fun x => x.key != key)
      else st.activeMap.map (fun x => if x.key = key then { x with count := c } else x)
    updateActiveLocations { st with activeMap := m }

/-- Embeds `clearActiveLocations`: unless both the multiset and the
published list are already empty, clear the multiset and publish `[]`. -/
def clearActiveLocations (st : ActiveState) : ActiveState :=
  if st.activeMap.isEmpty ∧ st.activeLocations.isEmpty then st
  else { activeMap := [], activeLocations := [] }

/-- Active-range projection of `stop()`: `stop` calls the external
`repl.stop()` and then `clearActiveLocations`. -/
def stopActive (st : ActiveState) : ActiveState :=
  clearActiveLocations st

/-- One operation on the active-range bookkeeping: an increment from
`addActiveRange`, a timer-fired release closure (identified by the key it
captured), or the force-clear used by `stop()`. -/
inductive ActiveOp where
  | add (r : MiniLocation)
  | release (key : String)
  | clear
deriving DecidableEq

def applyActiveOp (st : ActiveState) : ActiveOp → ActiveState
  | .add r => addActiveRange st r
  | .release k => releaseActiveRange st k
  | .clear => clearActiveLocations st

def applyActiveOps (ops : List ActiveOp) : ActiveState :=
  ops.foldl applyActiveOp ⟨[], []⟩

/-- Invariant carried by every reachable active-range state: all stored
counts are at least 1 and the published list is the range projection of the
multiset. -/
def ActiveInv (st : ActiveState) : Prop :=
  (∀ e ∈ st.activeMap, 1 ≤ e.count) ∧ st.activeLocations = rangesOf st.activeMap

theorem updateActiveLocations_activeMap (st : ActiveState) :
    (updateActiveLocations st).activeMap = st.activeMap := by
  unfold updateActiveLocations
  by_cases h : rangesEqual (rangesOf st.activeMap) st.activeLocations <;> simp [h]

theorem updateActiveLocations_activeLocations (st : ActiveState) :
    (updateActiveLocations st).activeLocations = rangesOf st.activeMap := by
  unfold updateActiveLocations
  by_cases h : rangesEqual (rangesOf st.activeMap) st.activeLocations
  · simp only [h, if_pos]
    exact (rangesEqual_iff.mp h).symm
  · simp [h]

theorem activeInv_add {st : ActiveState} (r : MiniLocation) (h : ActiveInv st) :
    ActiveInv (addActiveRange st r) := by
  unfold addActiveRange
  constructor
  · rw [updateActiveLocations_activeMap]
    intro e he
    simp only at he
    cases hg : amGet st.activeMap (rangeKey r) with
    | some e₀ =>
      rw [hg] at he
      obtain ⟨x, hx, hxe⟩ := List.mem_map.mp he
      by_cases hk : x.key = rangeKey r
      · rw [if_pos hk] at hxe
        subst hxe
        have := h.1 x hx
        simp only
        omega
      · rw [if_neg hk] at hxe
        subst hxe
        exact h.1 x hx
    | none =>
      rw [hg] at he
      rcases List.mem_append.mp he with hm | hm
      · exact h.1 e hm
      · simp only [List.mem_singleton] at hm
        subst hm
        exact le_refl 1
  · rw [updateActiveLocations_activeLocations, updateActiveLocations_activeMap]

theorem activeInv_release {st : ActiveState} (k : String) (h : ActiveInv st) :
    ActiveInv (releaseActiveRange st k) := by
  unfold releaseActiveRange
  cases hg : amGet st.activeMap k with
  | none => exact h
  | some e =>
    constructor
    · rw [updateActiveLocations_activeMap]
      simp only
      by_cases hc : e.count - 1 ≤ 0
      · rw [if_pos hc]
        intro x hx
        exact h.1 x (List.mem_of_mem_filter hx)
      · rw [if_neg hc]
        intro x hx
        obtain ⟨y, hy, hye⟩ := List.mem_map.mp hx
        by_cases hk : y.key = k
        · rw [if_pos hk] at hye
          subst hye
          simp only
          omega
        · rw [if_neg hk] at hye
          subst hye
          exact h.1 y hy
    · rw [updateActiveLocations_activeLocations, updateActiveLocations_activeMap]

theorem activeInv_clear {st : ActiveState} (h : ActiveInv st) :
    ActiveInv (clearActiveLocations st) := by
  unfold clearActiveLocations
  split
  · exact h
  · exact ⟨by simp, by simp [rangesOf]⟩

theorem activeInv_applyActiveOp {st : ActiveState} (op : ActiveOp) (h : ActiveInv st) :
    ActiveInv (applyActiveOp st op) := by
  cases op with
  | add r => exact activeInv_add r h
  | release k => exact activeInv_release k h
  | clear => exact activeInv_clear h

theorem activeInv_applyActiveOps (ops : List ActiveOp) : ActiveInv (applyActiveOps ops) := by
  have hinit : ActiveInv ⟨[], []⟩ := ⟨by simp, by simp [rangesOf]⟩
  unfold applyActiveOps
  generalize hst : (⟨[], []⟩ : ActiveState) = st₀ at hinit
  clear hst
  induction ops generalizing st₀ with
  | nil => exact hinit
  | cons op rest ih => exact ih _ (activeInv_applyActiveOp op hinit)

/-- C1: after any sequence of active-range operations (`addActiveRange`
increments, release closures, `clearActiveLocations`/`stop`), a range is in
`state.activeLocations` iff `activeMap` holds an entry for that range with
reference count > 0, and every stored entry has count ≥ 1. -/
theorem activeRange_multiset_invariant (ops : List ActiveOp) :
    (∀ e ∈ (applyActiveOps ops).activeMap, 1 ≤ e.count) ∧
    (∀ r : MiniLocation, r ∈ (applyActiveOps ops).activeLocations ↔
      ∃ e ∈ (applyActiveOps ops).activeMap, e.range = r ∧ 0 < e.count) := by
  obtain ⟨h1, h2⟩ := activeInv_applyActiveOps ops
  refine ⟨h1, ?_⟩
  intro r
  rw [h2]
  constructor
  · intro hr
    obtain ⟨e, he, hre⟩ := List.mem_map.mp hr
    exact ⟨e, he, hre, by have := h1 e he; omega⟩
  · rintro ⟨e, he, hre, _⟩
    exact List.mem_map.mpr ⟨e, he, hre⟩

/-- C2: `stop()` synchronously empties the active multiset and publishes an
empty `activeLocations`, and any number of timer-scheduled release closures
firing afterwards leaves both empty — a pending decrement can never
resurrect a stale range. -/
theorem stop_clears_active_locations (st : ActiveState) (pending : List String) :
    (stopActive st).activeMap = [] ∧ (stopActive st).activeLocations = [] ∧
    (pending.foldl releaseActiveRange (stopActive st)).activeMap = [] ∧
    (pending.foldl releaseActiveRange (stopActive st)).activeLocations = [] := by
  have hstop : (stopActive st).activeMap = [] ∧ (stopActive st).activeLocations = [] := by
    unfold stopActive clearActiveLocations
    by_cases h : st.activeMap.isEmpty ∧ st.activeLocations.isEmpty
    · rw [if_pos h]
      exact ⟨List.isEmpty_iff.mp h.1, List.isEmpty_iff.mp h.2⟩
    · rw [if_neg h]
      exact ⟨rfl, rfl⟩
  have hfold : ∀ (ks : List String) (s : ActiveState), s.activeMap = [] →
      (ks.foldl releaseActiveRange s).activeMap = [] ∧
      (ks.foldl releaseActiveRange s).activeLocations = s.activeLocations := by
    intro ks
    induction ks with
    | nil => exact fun s hs => ⟨hs, rfl⟩
    | cons k rest ih =>
      intro s hs
      have hrel : releaseActiveRange s k = s := by
        unfold releaseActiveRange
        rw [hs]
        rfl
      rw [List.foldl_cons, hrel]
      exact ih s hs
  obtain ⟨hm, hl⟩ := hstop
  obtain ⟨hm2, hl2⟩ := hfold pending _ hm
  exact ⟨hm, hl, hm2, by rw [hl2, hl]⟩

/- Sample-bank registry data model (`strudel-engine.ts`). -/

/-- Bank lifecycle status. -/
inductive SampleBankStatus where
  | idle
  | loading
  | ready
  | error
deriving DecidableEq

/-- A bank source descriptor: either a URL-like string or a key-to-path
mapping object.  A mapping carries an identity token standing for the
JavaScript object reference together with its `Object.keys` enumeration
order; path values are opaque to every operation modelled here. -/
inductive SampleBankSource where
  | str (value : String)
  | map (ref : Nat) (keys : List String)
deriving DecidableEq

/-- JavaScript `===`/`!==` on bank sources: strings compare by value,
mapping objects by reference. -/
def jsSourceEq : SampleBankSource → SampleBankSource → Bool
  | .str a, .str b => a = b
  | .map r _, .map r' _ => r = r'
  | _, _ => false

theorem jsSourceEq_refl (s : SampleBankSource) : jsSourceEq s s = true := by
  cases s <;> simp [jsSourceEq]

/-- Bank metadata.  `prebake` is a callback, modelled by an identity token.
The field written `bankPfx` is the source's `bankPrefix`. -/
structure SampleBankMeta where
  baseUrl : Option String
  tag : Option String
  prebake : Option Nat
  bankPfx : Option String
  bankAliases : Option (List String)
deriving DecidableEq

/-- The metadata object with no keys set. -/
def emptyMeta : SampleBankMeta :=
  ⟨none, none, none, none, none⟩

/-- `Object.keys(meta).length > 0` under the program invariant that meta
objects never store explicitly-undefined keys. -/
def metaHasAny (m : SampleBankMeta) : Bool :=
  m.baseUrl.isSome || m.tag.isSome || m.prebake.isSome || m.bankPfx.isSome ||
    m.bankAliases.isSome

/-- Embeds `dedupeBankAliases`: keep the first occurrence of each non-empty
value, in order (the JavaScript `Set` preserves insertion order). -/
def dedupeAliasesAux (seen : List String) : List String → List String
  | [] => []
  | v :: rest =>
    if v = "" || seen.contains v then dedupeAliasesAux seen rest
    else v :: dedupeAliasesAux (v :: seen) rest

def dedupeBankAliases (values : List String) : List String :=
  dedupeAliasesAux [] values

/-- The body of the `if (next)` block of `mergeSampleBankMeta`: start from a
spread of `current` and overwrite exactly the keys `next` sets;
`bankAliases` become the deduplicated union. -/
def mergedMetaRecord (base nx : SampleBankMeta) : SampleBankMeta :=
  { baseUrl := match nx.baseUrl with | some v => some v | none => base.baseUrl
    tag := match nx.tag with | some v => some v | none => base.tag
    prebake := match nx.prebake with | some v => some v | none => base.prebake
    bankPfx := match nx.bankPfx with | some v => some v | none => base.bankPfx
    bankAliases :=
      match nx.bankAliases with
      | some vs =>
        let combined := dedupeBankAliases (base.bankAliases.getD [] ++ vs)
        if combined.isEmpty then none else some combined
      | none => base.bankAliases }

/-- Embeds `mergeSampleBankMeta`: a patch only overwrites keys it sets,
`bankAliases` are unioned and deduplicated, and a merge with no keys left is
`undefined`. -/
def mergeSampleBankMeta (current next : Option SampleBankMeta) : Option SampleBankMeta :=
  match current, next with
  | none, none => none
  | _, _ =>
    let base := current.getD emptyMeta
    let merged :=
      match next with
      | none => base
      | some nx => mergedMetaRecord base nx
    if metaHasAny merged then some merged else none

/-- One registered bank, mirroring `SampleBankState`. -/
structure SampleBankState where
  id : String
  label : String
  status : SampleBankStatus
  source : SampleBankSource
  sourceSummary : String
  error : Option String
  loadedAt : Option Nat
  meta : Option SampleBankMeta
deriving DecidableEq

/-- Options accepted by `registerSampleBank` and the load entry points.  The
field written `bankPfx` is the source's `bankPrefix`. -/
structure SampleBankOptions where
  id : Option String := none
  label : Option String := none
  baseUrl : Option String := none
  tag : Option String := none
  prebake : Option Nat := none
  bankPfx : Option String := none
deriving DecidableEq

/-- `source.split(/[\\/]/)` on the character list, keeping empty pieces. -/
def splitSlashAux (acc : List Char) : List Char → List (List Char)
  | [] => [acc.reverse]
  | c :: rest =>
    if c = '/' ∨ c = '\\' then acc.reverse :: splitSlashAux [] rest
    else splitSlashAux (c :: acc) rest

/-- `source.split(/[\\/]/).filter(Boolean)`. -/
def splitSegments (s : String) : List String :=
  ((splitSlashAux [] s.data).map String.mk).filter (fun t => t != "")

/-- `key.startsWith('_')`. -/
def underscoreFirst (k : String) : Bool :=
  k.data.head? = some '_'

/-- Embeds `inferSampleBankIdFromSource`: last path segment of a string
source (falling back to the source itself), or the first
non-underscore-prefixed key of a mapping (falling back to
`"custom-bank"`). -/
def inferSampleBankIdFromSource : SampleBankSource → String
  | .str s => ((splitSegments s).getLast?).getD s
  | .map _ keys => ((keys.filter (fun k => !underscoreFirst k)).head?).getD "custom-bank"

/-- Replace each maximal run of characters satisfying `p` by the single
character `r`; the flag records whether the previous character was in a
run. -/
def replaceRunsAux (p : Char → Bool) (r : Char) : Bool → List Char → List Char
  | _, [] => []
  | inRun, c :: rest =>
    if p c then
      if inRun then replaceRunsAux p r true rest
      else r :: replaceRunsAux p r true rest
    else c :: replaceRunsAux p r false rest

def replaceRuns (p : Char → Bool) (r : Char) (l : List Char) : List Char :=
  replaceRunsAux p r false l

def isLowerAZ (c : Char) : Bool := 97 ≤ c.toNat && c.toNat ≤ 122

def isUpperAZ (c : Char) : Bool := 65 ≤ c.toNat && c.toNat ≤ 90

/-- The replacement `/([a-z])([A-Z])/g → '$1 $2'`: insert a space between a
lowercase letter and the uppercase letter following it. -/
def camelSplit : List Char → List Char
  | [] => []
  | [c] => [c]
  | c₁ :: c₂ :: rest =>
    if isLowerAZ c₁ && isUpperAZ c₂ then c₁ :: ' ' :: camelSplit (c₂ :: rest)
    else c₁ :: camelSplit (c₂ :: rest)

/-- `charAt(0).toUpperCase() + slice(1)`. -/
def capitalise : List Char → List Char
  | [] => []
  | c :: rest => jsToUpper c :: rest

def isUnderscoreOrDash (c : Char) : Bool := c = '_' || c = '-'

/-- Embeds `humaniseToken`: turn `_`/`-` runs into spaces, split camelCase,
collapse whitespace, trim, capitalise; empty input or an all-separator input
falls back to `"Sample bank"`. -/
def humaniseToken (value : String) : String :=
  if value = "" then "Sample bank"
  else
    let spaced := stripEnds jsIsWs
      (replaceRuns jsIsWs ' ' (camelSplit (replaceRuns isUnderscoreOrDash ' ' value.data)))
    if spaced.isEmpty then "Sample bank" else String.mk (capitalise spaced)

/-- Embeds `inferSampleBankLabelFromSource`. -/
def inferSampleBankLabelFromSource (src : SampleBankSource) (fallback : String) : String :=
  let candidate :=
    match src with
    | .str s => ((splitSegments s).getLast?).getD fallback
    | .map _ keys => ((keys.filter (fun k => !underscoreFirst k)).head?).getD fallback
  humaniseToken candidate

/-- Embeds the source's bank-prefix normaliser: keep only `[a-zA-Z0-9]`,
capitalise the first character, and return `undefined` for a falsy input or
an empty compaction. -/
def normaliseSampleBankPfx (value : String) : Option String :=
  if value = "" then none
  else
    let compact := value.data.filter isAlnumChar
    if compact.isEmpty then none else some (String.mk (capitalise compact))

/-- Extras handed to `describeSampleBankSource`; the field written `bankPfx`
is the source's `bankPrefix`. -/
structure BankDescriptorExtras where
  baseUrl : Option String := none
  bankPfx : Option String := none
deriving DecidableEq

/-- Embeds `formatBankDescriptor`. -/
def formatBankDescriptor (extras : BankDescriptorExtras) : String :=
  match extras.bankPfx with
  | some p => if p = "" then "" else " (bank: " ++ p ++ ")"
  | none => ""

/-- `Array.prototype.join(', ')`. -/
def joinCommaSpace : List String → String
  | [] => ""
  | [s] => s
  | s :: rest => s ++ ", " ++ joinCommaSpace rest

/-- Embeds `describeSampleBankSource`. -/
def describeSampleBankSource (src : SampleBankSource) (extras : BankDescriptorExtras) : String :=
  match src with
  | .str s => s ++ formatBankDescriptor extras
  | .map _ keys =>
    let ks := keys.filter (fun k => !underscoreFirst k)
    let total := ks.length
    let preview := joinCommaSpace (ks.take 3)
    let extra := if 3 < total then " +" ++ decimalString (total - 3) ++ " more" else ""
    let base :=
      if total = 0 then "Custom map"
      else
        "Custom map (" ++ decimalString total ++ " key" ++ (if total = 1 then "" else "s") ++
          ": " ++ preview ++ extra ++ ")"
    let withBase :=
      match extras.baseUrl with
      | some b => if b = "" then base else base ++ " @ " ++ b
      | none => base
    withBase ++ formatBankDescriptor extras

/- Engine state and registry operations.  Only the fields the modelled
operations read or write are carried: the two `Map`s, the shared loading
counter, the published `sampleBanks` and `isLoadingSamples` fields of
`EngineState`, a counter of subscriber notifications, and a log of the bank
ids for which `performSampleBankLoad` has been started.  Promises are
numbered by a fresh-token counter. -/

structure EngineSt where
  registry : List (String × SampleBankState)
  promises : List (String × Nat)
  nextPromise : Nat
  loadingCount : Nat
  pubBanks : List SampleBankState
  pubIsLoading : Bool
  emits : Nat
  startedLoads : List String
deriving DecidableEq

/-- Engine state at construction time. -/
def initialEngine : EngineSt :=
  ⟨[], [], 0, 0, [], false, 0, []⟩

/-- Embeds `syncSampleBanks`: publish a fresh `sampleBanks` array.  The
array is a new object on every call, so `setState`'s per-field reference
comparison always sees a change and notifies subscribers. -/
def syncSampleBanks (st : EngineSt) : EngineSt :=
  { st with pubBanks := st.registry.map Prod.snd, emits := st.emits + 1 }

/-- Embeds `adjustSampleLoading`: clamp the shared counter at zero and
publish `isLoadingSamples` only when the derived flag actually changes. -/
def adjustSampleLoading (st : EngineSt) (delta : Int) : EngineSt :=
  if delta = 0 then st
  else
    let cnt := (max 0 ((st.loadingCount : Int) + delta)).toNat
    let isLoading := decide (0 < cnt)
    if isLoading = st.pubIsLoading then { st with loadingCount := cnt }
    else { st with loadingCount := cnt, pubIsLoading := isLoading, emits := st.emits + 1 }

/-- Falsiness of `options.id` as tested by `!options.id`: missing or the
empty string. -/
def jsFalsyId : Option String → Bool
  | none => true
  | some s => s = ""

/-- `options.id ?? inferSampleBankIdFromSource(source)` followed by the
falsy fallback to `bank-(size+1)`. -/
def derivedBaseId (st : EngineSt) (src : SampleBankSource) (opts : SampleBankOptions) : String :=
  let derivedId := opts.id.getD (inferSampleBankIdFromSource src)
  if derivedId = "" then "bank-" ++ decimalString (st.registry.length + 1) else derivedId

/-- The id-selection step of `registerSampleBank`: derive the candidate id,
and when no explicit id was given and the derived id is taken by an entry
with a different source, walk the numeric suffixes to the first unused id.
Returns the chosen id together with the entry currently stored under it. -/
def chooseRegisterId (st : EngineSt) (src : SampleBankSource) (opts : SampleBankOptions) :
    String × Option SampleBankState :=
  let baseId := derivedBaseId st src opts
  let firstId := normaliseSampleBankId baseId
  let existing₀ := mapGet st.registry firstId
  let collide := jsFalsyId opts.id &&
    (match existing₀ with
     | some e => !jsSourceEq e.source src
     | none => false)
  if collide then
    let sid := suffixCandidate baseId (findFreeSuffix st.registry baseId)
    (sid, mapGet st.registry sid)
  else (firstId, existing₀)

/-- Embeds `registerSampleBank`, returning the stored state and the updated
engine. -/
def registerSampleBank (st : EngineSt) (src : SampleBankSource) (opts : SampleBankOptions) :
    SampleBankState × EngineSt :=
  let baseId := derivedBaseId st src opts
  let idExisting := chooseRegisterId st src opts
  let id := idExisting.1
  let existing := idExisting.2
  let sourceChanged :=
    match existing with
    | some e => !jsSourceEq e.source src
    | none => true
  let labelInput := (opts.label.or (existing.map (fun e => e.label))).getD
    (inferSampleBankLabelFromSource src id)
  let pfx := (((opts.bankPfx.or (normaliseSampleBankPfx labelInput)).or
    ((existing.bind (fun e => e.meta)).bind (fun m => m.bankPfx))).or
    (normaliseSampleBankPfx baseId)).getD baseId
  let meta := mergeSampleBankMeta (existing.bind (fun e => e.meta))
    (some { baseUrl := opts.baseUrl, tag := opts.tag, prebake := opts.prebake,
            bankPfx := some pfx, bankAliases := none })
  let nextState : SampleBankState := {
    id := id
    label := pfx
    status := if sourceChanged then .idle else (existing.map (fun e => e.status)).getD .idle
    source := src
    sourceSummary := describeSampleBankSource src
      ⟨meta.bind (fun m => m.baseUrl), meta.bind (fun m => m.bankPfx)⟩
    error := if sourceChanged then none else existing.bind (fun e => e.error)
    loadedAt := if sourceChanged then none else existing.bind (fun e => e.loadedAt)
    meta := meta }
  (nextState, syncSampleBanks { st with registry := mapSet st.registry id nextState })

/-- Embeds `removeSampleBank`: delete the registry entry and the in-flight
promise entry and republish, or return `null` untouched when the normalised
id is not registered. -/
def removeSampleBank (st : EngineSt) (id : String) : Option SampleBankState × EngineSt :=
  let normalised := normaliseSampleBankId id
  match mapGet st.registry normalised with
  | none => (none, st)
  | some existing =>
    (some existing,
      syncSampleBanks { st with registry := mapDelete st.registry normalised,
                                promises := mapDelete st.promises normalised })

/-- A field of a JavaScript patch object literal: absent, present with value
`undefined`, or present with a value.  Spreading `{...current, ...patch}`
keeps, clears or overwrites accordingly. -/
inductive JsField (α : Type) where
  | absent
  | undef
  | val (a : α)
deriving DecidableEq

def JsField.spread {α : Type} : JsField α → Option α → Option α
  | .absent, cur => cur
  | .undef, _ => none
  | .val a, _ => some a

/-- The patch shapes passed to `updateSampleBank` by the load pipeline.
Fields that are never cleared by any caller are plain `Option` (absent or
value); `error` distinguishes an explicit `error: undefined` key. -/
structure BankPatch where
  label : Option String := none
  status : Option SampleBankStatus := none
  sourceSummary : Option String := none
  error : JsField String := .absent
  loadedAt : Option Nat := none
  meta : Option SampleBankMeta := none
deriving DecidableEq

/-- Embeds `updateSampleBank`. -/
def updateSampleBank (st : EngineSt) (id : String) (patch : BankPatch) :
    Option SampleBankState × EngineSt :=
  match mapGet st.registry id with
  | none => (none, st)
  | some current =>
    let nextMeta :=
      match patch.meta with
      | some m => mergeSampleBankMeta current.meta (some m)
      | none => current.meta
    let base : SampleBankState := {
      id := current.id
      label := patch.label.getD current.label
      status := patch.status.getD current.status
      source := current.source
      sourceSummary := patch.sourceSummary.getD current.sourceSummary
      error := patch.error.spread current.error
      loadedAt := match patch.loadedAt with | some t => some t | none => current.loadedAt
      meta := nextMeta }
    let recompute := patch.sourceSummary.isNone &&
      (match patch.meta with
       | some m => m.baseUrl.isSome || m.bankPfx.isSome
       | none => false)
    let nextState :=
      if recompute then
        let extras : BankDescriptorExtras :=
          ⟨nextMeta.bind (fun m => m.baseUrl), nextMeta.bind (fun m => m.bankPfx)⟩
        { base with sourceSummary := describeSampleBankSource base.source extras }
      else base
    (some nextState, syncSampleBanks { st with registry := mapSet st.registry id nextState })

/-- Error message for a load request on an unregistered id. -/
def sampleBankMissingMsg (id : String) : String :=
  "Sample bank \"" ++ id ++ "\" is not registered"

/-- The metadata merged by `runSampleBankLoad` from the existing entry and
the override options. -/
def runLoadMeta (existing : SampleBankState) (ov : SampleBankOptions) : Option SampleBankMeta :=
  mergeSampleBankMeta existing.meta
    (some { baseUrl := ov.baseUrl, tag := ov.tag, prebake := ov.prebake,
            bankPfx := ov.bankPfx, bankAliases := none })

/-- The patch `runSampleBankLoad` applies before consulting the in-flight
promise map: merged meta, overridden label, recomputed summary and an
explicit `error: undefined`. -/
def runLoadPatch (existing : SampleBankState) (ov : SampleBankOptions) : BankPatch :=
  { label := some (ov.label.getD existing.label),
    sourceSummary := some (describeSampleBankSource existing.source
      ⟨(runLoadMeta existing ov).bind (fun m => m.baseUrl),
       (runLoadMeta existing ov).bind (fun m => m.bankPfx)⟩),
    error := .undef,
    meta := runLoadMeta existing ov }

/-- Embeds `runSampleBankLoad`: merge override metadata into the entry, then
either return the already-in-flight promise for the target id or start
`performSampleBankLoad` and record its promise.  Starting a load appends the
id to `startedLoads`; the body of the started load runs after its first
`await` and is modelled separately by `performSampleBankLoad`. -/
def runSampleBankLoad (st : EngineSt) (id : String) (overrides : SampleBankOptions) :
    Except String (Nat × EngineSt) :=
  let targetId := normaliseSampleBankId id
  match mapGet st.registry targetId with
  | none => .error (sampleBankMissingMsg id)
  | some existing =>
    let st₁ := (updateSampleBank st targetId (runLoadPatch existing overrides)).2
    match mapGet st₁.promises targetId with
    | some p => .ok (p, st₁)
    | none =>
      let p := st₁.nextPromise
      .ok (p, { st₁ with promises := mapSet st₁.promises targetId p,
                         nextPromise := st₁.nextPromise + 1,
                         startedLoads := st₁.startedLoads ++ [targetId] })

/-- Embeds `loadSampleBankById`: re-register metadata-only changes when any
option besides the id is supplied, then run the load. -/
def loadSampleBankById (st : EngineSt) (id : String) (opts : SampleBankOptions) :
    Except String (Nat × EngineSt) :=
  let normalised := normaliseSampleBankId id
  match mapGet st.registry normalised with
  | none => .error (sampleBankMissingMsg id)
  | some existing =>
    let st₁ :=
      if opts.label.isSome || opts.baseUrl.isSome || opts.tag.isSome || opts.prebake.isSome then
        (registerSampleBank st existing.source { opts with id := some normalised }).2
      else st
    runSampleBankLoad st₁ normalised opts

/-- The `finally` block of `performSampleBankLoad`: decrement the loading
counter and drop the in-flight promise entry. -/
def finallySampleBankLoad (st : EngineSt) (id : String) : EngineSt :=
  let st' := adjustSampleLoading st (-1)
  { st' with promises := mapDelete st'.promises id }

/-- Embeds `performSampleBankLoad` from the `updateSampleBank(..., loading)`
step onwards.  The earlier environment checks (`init()` and the existence of
a `samples` function) reject before any state mutation and are outside this
model.  `outcome` stands for the awaited external work inside the `try`
block (`ensureAudio` plus the `samples(...)` call), a failure carrying its
message string; `now` is `Date.now()` at completion. -/
def performSampleBankLoad (st : EngineSt) (bank : SampleBankState)
    (outcome : Except String Unit) (now : Nat) :
    Except String SampleBankState × EngineSt :=
  let st₁ := (updateSampleBank st bank.id { status := some .loading, error := .undef }).2
  let st₂ := adjustSampleLoading st₁ 1
  match outcome with
  | .ok _ =>
    let upd := updateSampleBank st₂ bank.id { status := some .ready, loadedAt := some now }
    (.ok (upd.1.getD bank), finallySampleBankLoad upd.2 bank.id)
  | .error msg =>
    let upd := updateSampleBank st₂ bank.id { status := some .error, error := .val msg }
    (.error msg, finallySampleBankLoad upd.2 bank.id)

/- Claim C7: additivity of the metadata merge. -/

theorem mergeSampleBankMeta_some (c : Option SampleBankMeta) (p : SampleBankMeta) :
    mergeSampleBankMeta c (some p) =
      (if metaHasAny (mergedMetaRecord (c.getD emptyMeta) p) then
        some (mergedMetaRecord (c.getD emptyMeta) p) else none) := by
  cases c <;> rfl

theorem isSome_false_eq_none {β : Type} {o : Option β} (h : o.isSome = false) : o = none := by
  cases o
  · rfl
  · simp at h

theorem metaHasAny_false {m : SampleBankMeta} (h : metaHasAny m = false) :
    m.baseUrl = none ∧ m.tag = none ∧ m.prebake = none ∧ m.bankPfx = none ∧
      m.bankAliases = none := by
  simp only [metaHasAny, Bool.or_eq_false_iff] at h
  obtain ⟨⟨⟨⟨h1, h2⟩, h3⟩, h4⟩, h5⟩ := h
  exact ⟨isSome_false_eq_none h1, isSome_false_eq_none h2, isSome_false_eq_none h3,
    isSome_false_eq_none h4, isSome_false_eq_none h5⟩

theorem option_bind_getD_empty {β : Type} (c : Option SampleBankMeta)
    (f : SampleBankMeta → Option β) (hf : f emptyMeta = none) :
    c.bind f = f (c.getD emptyMeta) := by
  cases c <;> simp [hf]

theorem mergedMetaRecord_baseUrl (b nx : SampleBankMeta) :
    (mergedMetaRecord b nx).baseUrl = nx.baseUrl.or b.baseUrl := by
  cases hx : nx.baseUrl <;> simp [mergedMetaRecord, hx, Option.or]

theorem mergedMetaRecord_tag (b nx : SampleBankMeta) :
    (mergedMetaRecord b nx).tag = nx.tag.or b.tag := by
  cases hx : nx.tag <;> simp [mergedMetaRecord, hx, Option.or]

theorem mergedMetaRecord_prebake (b nx : SampleBankMeta) :
    (mergedMetaRecord b nx).prebake = nx.prebake.or b.prebake := by
  cases hx : nx.prebake <;> simp [mergedMetaRecord, hx, Option.or]

theorem mergedMetaRecord_bankPfx (b nx : SampleBankMeta) :
    (mergedMetaRecord b nx).bankPfx = nx.bankPfx.or b.bankPfx := by
  cases hx : nx.bankPfx <;> simp [mergedMetaRecord, hx, Option.or]

theorem mergedMetaRecord_bankAliases (b nx : SampleBankMeta) :
    (mergedMetaRecord b nx).bankAliases =
      match nx.bankAliases with
      | some vs =>
        let combined := dedupeBankAliases (b.bankAliases.getD [] ++ vs)
        if combined.isEmpty then none else some combined
      | none => b.bankAliases := rfl

/-- C7: the sample-bank metadata merge is additive: the merged meta takes
exactly the fields the patch explicitly sets (`baseUrl`, `tag`, `prebake`,
`bankPfx`), keeps the prior value for every omitted field, and computes
`bankAliases` as the deduplicated union of the current and patched alias
lists rather than a replacement. -/
theorem mergeSampleBankMeta_additive (c : Option SampleBankMeta) (p : SampleBankMeta) :
    ((mergeSampleBankMeta c (some p)).bind (fun m => m.baseUrl) =
      p.baseUrl.or (c.bind (fun m => m.baseUrl))) ∧
    ((mergeSampleBankMeta c (some p)).bind (fun m => m.tag) =
      p.tag.or (c.bind (fun m => m.tag))) ∧
    ((mergeSampleBankMeta c (some p)).bind (fun m => m.prebake) =
      p.prebake.or (c.bind (fun m => m.prebake))) ∧
    ((mergeSampleBankMeta c (some p)).bind (fun m => m.bankPfx) =
      p.bankPfx.or (c.bind (fun m => m.bankPfx))) ∧
    ((mergeSampleBankMeta c (some p)).bind (fun m => m.bankAliases) =
      match p.bankAliases with
      | some vs =>
        let combined :=
          dedupeBankAliases ((c.bind (fun m => m.bankAliases)).getD [] ++ vs)
        if combined.isEmpty then none else some combined
      | none => c.bind (fun m => m.bankAliases)) := by
  rw [mergeSampleBankMeta_some,
    option_bind_getD_empty c (fun m => m.baseUrl) rfl,
    option_bind_getD_empty c (fun m => m.tag) rfl,
    option_bind_getD_empty c (fun m => m.prebake) rfl,
    option_bind_getD_empty c (fun m => m.bankPfx) rfl,
    option_bind_getD_empty c (fun m => m.bankAliases) rfl]
  by_cases hm : metaHasAny (mergedMetaRecord (c.getD emptyMeta) p)
  · rw [if_pos hm]
    simp only [Option.some_bind]
    exact ⟨mergedMetaRecord_baseUrl _ _, mergedMetaRecord_tag _ _,
      mergedMetaRecord_prebake _ _, mergedMetaRecord_bankPfx _ _,
      mergedMetaRecord_bankAliases _ _⟩
  · rw [if_neg hm]
    obtain ⟨h1, h2, h3, h4, h5⟩ := metaHasAny_false (Bool.eq_false_iff.mpr hm)
    simp only [Option.none_bind]
    refine ⟨?_, ?_, ?_, ?_, ?_⟩
    · rw [← mergedMetaRecord_baseUrl (c.getD emptyMeta) p, h1]
    · rw [← mergedMetaRecord_tag (c.getD emptyMeta) p, h2]
    · rw [← mergedMetaRecord_prebake (c.getD emptyMeta) p, h3]
    · rw [← mergedMetaRecord_bankPfx (c.getD emptyMeta) p, h4]
    · rw [← mergedMetaRecord_bankAliases (c.getD emptyMeta) p, h5]

/- Claim C10: removing an unregistered bank id is a no-op. -/

/-- C10: `removeSampleBank` called with an id whose normalised form is not
in the registry returns `null` and has no observable effect: the registry,
the in-flight promise map, the published state and the notification count
are all unchanged. -/
theorem removeSampleBank_missing_noop (st : EngineSt) (id : String)
    (h : mapGet st.registry (normaliseSampleBankId id) = none) :
    removeSampleBank st id = (none, st) := by
  unfold removeSampleBank
  simp only [h]

/-- Witness for C10 at a concrete input. -/
theorem removeSampleBank_missing_noop_witness :
    mapGet initialEngine.registry (normaliseSampleBankId "missing") = none ∧
    removeSampleBank initialEngine "missing" = (none, initialEngine) :=
  ⟨by decide, removeSampleBank_missing_noop initialEngine "missing" (by decide)⟩

/- Claim C5: concurrent loads of one bank id collapse to the in-flight
promise. -/

theorem registerSampleBank_frame (st : EngineSt) (src : SampleBankSource)
    (opts : SampleBankOptions) :
    (registerSampleBank st src opts).2.promises = st.promises ∧
    (registerSampleBank st src opts).2.nextPromise = st.nextPromise ∧
    (registerSampleBank st src opts).2.startedLoads = st.startedLoads ∧
    (registerSampleBank st src opts).2.loadingCount = st.loadingCount :=
  ⟨rfl, rfl, rfl, rfl⟩

theorem updateSampleBank_frame (st : EngineSt) (id : String) (patch : BankPatch) :
    (updateSampleBank st id patch).2.promises = st.promises ∧
    (updateSampleBank st id patch).2.nextPromise = st.nextPromise ∧
    (updateSampleBank st id patch).2.startedLoads = st.startedLoads ∧
    (updateSampleBank st id patch).2.loadingCount = st.loadingCount := by
  unfold updateSampleBank
  cases mapGet st.registry id
  · exact ⟨rfl, rfl, rfl, rfl⟩
  · exact ⟨rfl, rfl, rfl, rfl⟩

theorem chooseRegisterId_explicit (st : EngineSt) (src : SampleBankSource)
    (opts : SampleBankOptions) {id : String} (hopts : opts.id = some id) (hne : id ≠ "")
    (hid : normaliseSampleBankId id = id) :
    chooseRegisterId st src opts = (id, mapGet st.registry id) := by
  have hbase : derivedBaseId st src opts = id := by
    unfold derivedBaseId
    rw [hopts]
    simp [hne]
  have hfalsy : jsFalsyId opts.id = false := by
    rw [hopts]
    simp [jsFalsyId, hne]
  simp only [chooseRegisterId, hbase, hid, hfalsy, Bool.false_and, Bool.false_eq_true, if_false]

/-- Whether the entry previously stored under the chosen id (if any) holds a
different source than the one being registered — the `sourceChanged` flag of
`registerSampleBank`. -/
def sourceChangedFlag (ex : Option SampleBankState) (src : SampleBankSource) : Bool :=
  match ex with
  | some e => !jsSourceEq e.source src
  | none => true

/-- Generic unfolding of `registerSampleBank` once the id-selection step is
known: the new entry is stored under the chosen id, carries the given
source, and resets or keeps `status`/`error`/`loadedAt` according to whether
the source changed relative to the entry previously under that id. -/
theorem registerSampleBank_eq (st : EngineSt) (src : SampleBankSource) (opts : SampleBankOptions)
    {i : String} {ex : Option SampleBankState} (h : chooseRegisterId st src opts = (i, ex)) :
    ∃ ns : SampleBankState,
      registerSampleBank st src opts =
        (ns, syncSampleBanks { st with registry := mapSet st.registry i ns }) ∧
      ns.id = i ∧ ns.source = src ∧
      ns.status = (if sourceChangedFlag ex src
        then SampleBankStatus.idle else (ex.map (fun e => e.status)).getD SampleBankStatus.idle) ∧
      ns.error = (if sourceChangedFlag ex src then none else ex.bind (fun e => e.error)) ∧
      ns.loadedAt = (if sourceChangedFlag ex src then none else ex.bind (fun e => e.loadedAt)) := by
  simp only [registerSampleBank, h]
  exact ⟨_, rfl, rfl, rfl, rfl, rfl, rfl⟩

theorem registerSampleBank_explicit_id (st : EngineSt) (src : SampleBankSource)
    (opts : SampleBankOptions) {id : String} (hopts : opts.id = some id) (hne : id ≠ "")
    (hid : normaliseSampleBankId id = id) :
    ∃ ns, mapGet (registerSampleBank st src opts).2.registry id = some ns := by
  obtain ⟨ns, heq, _⟩ :=
    registerSampleBank_eq st src opts (chooseRegisterId_explicit st src opts hopts hne hid)
  have hreg : (registerSampleBank st src opts).2.registry = mapSet st.registry id ns := by
    rw [heq]
    rfl
  rw [hreg]
  exact ⟨ns, mapGet_set_self _ _ _⟩

theorem runSampleBankLoad_inflight (st : EngineSt) (id : String) (ov : SampleBankOptions)
    {e : SampleBankState} {p : Nat}
    (hid : normaliseSampleBankId id = id)
    (hreg : mapGet st.registry id = some e)
    (hp : mapGet st.promises id = some p) :
    ∃ st', runSampleBankLoad st id ov = .ok (p, st') ∧
      st'.promises = st.promises ∧ st'.startedLoads = st.startedLoads ∧
      st'.nextPromise = st.nextPromise := by
  obtain ⟨hpr, hnx, hsl, _⟩ := updateSampleBank_frame st id (runLoadPatch e ov)
  simp only [runSampleBankLoad, hid, hreg, hpr, hp]
  exact ⟨_, rfl, hpr, hsl, hnx⟩

/-- C5: when an in-flight load promise is already recorded for a bank id, a
second `runSampleBankLoad` for that id (and hence `loadSampleBankById`)
returns the very same promise token, records no new promise and starts no
second load. -/
theorem sampleBankLoad_dedup (st : EngineSt) (id : String) (ov ov₂ : SampleBankOptions)
    {e : SampleBankState} {p : Nat}
    (hid : normaliseSampleBankId id = id)
    (hreg : mapGet st.registry id = some e)
    (hp : mapGet st.promises id = some p) :
    (∃ st', runSampleBankLoad st id ov = .ok (p, st') ∧
      st'.promises = st.promises ∧ st'.startedLoads = st.startedLoads ∧
      st'.nextPromise = st.nextPromise) ∧
    (∃ st'', loadSampleBankById st id ov₂ = .ok (p, st'') ∧
      st''.promises = st.promises ∧ st''.startedLoads = st.startedLoads ∧
      st''.nextPromise = st.nextPromise) := by
  refine ⟨runSampleBankLoad_inflight st id ov hid hreg hp, ?_⟩
  by_cases hflag : (ov₂.label.isSome || ov₂.baseUrl.isSome || ov₂.tag.isSome ||
      ov₂.prebake.isSome) = true
  · simp only [loadSampleBankById, hid, hreg, hflag, if_true]
    have hne : id ≠ "" := hid ▸ normaliseSampleBankId_ne_empty id
    obtain ⟨ns, hns⟩ := registerSampleBank_explicit_id st e.source
      { ov₂ with id := some id } rfl hne hid
    obtain ⟨hpr, hnx, hsl, _⟩ := registerSampleBank_frame st e.source { ov₂ with id := some id }
    obtain ⟨st', hrun, h1, h2, h3⟩ := runSampleBankLoad_inflight
      (registerSampleBank st e.source { ov₂ with id := some id }).2 id ov₂ hid hns
      (by rw [hpr]; exact hp)
    exact ⟨st', hrun, by rw [h1, hpr], by rw [h2, hsl], by rw [h3, hnx]⟩
  · simp only [loadSampleBankById, hid, hreg, hflag, if_false]
    exact runSampleBankLoad_inflight st id ov₂ hid hreg hp

/-- Concrete engine used by the C5 witness: one registered bank. -/
def c5Base : EngineSt :=
  (registerSampleBank initialEngine (.str "a/drums") {}).2

/-- The C5 witness engine after one load has started: the promise for
`"drums"` is in flight. -/
def c5St : EngineSt :=
  match runSampleBankLoad c5Base "drums" {} with
  | .ok r => r.2
  | .error _ => c5Base

def c5Bank : SampleBankState :=
  (mapGet c5St.registry "drums").getD (registerSampleBank initialEngine (.str "a/drums") {}).1

def c5Promise : Nat :=
  (mapGet c5St.promises "drums").getD 707

/-- Witness for C5 at a concrete in-flight state. -/
theorem sampleBankLoad_dedup_witness :
    (normaliseSampleBankId "drums" = "drums" ∧
      mapGet c5St.registry "drums" = some c5Bank ∧
      mapGet c5St.promises "drums" = some c5Promise) ∧
    ((∃ st', runSampleBankLoad c5St "drums" {} = .ok (c5Promise, st') ∧
        st'.promises = c5St.promises ∧ st'.startedLoads = c5St.startedLoads ∧
        st'.nextPromise = c5St.nextPromise) ∧
     (∃ st'', loadSampleBankById c5St "drums" {} = .ok (c5Promise, st'') ∧
        st''.promises = c5St.promises ∧ st''.startedLoads = c5St.startedLoads ∧
        st''.nextPromise = c5St.nextPromise)) :=
  ⟨⟨by decide, by decide, by decide⟩,
    @sampleBankLoad_dedup c5St "drums" {} {} c5Bank c5Promise (by decide) (by decide) (by decide)⟩

/- Claim C6: postconditions of `performSampleBankLoad`. -/

theorem updateSampleBank_found (st : EngineSt) (id : String) (patch : BankPatch)
    {cur : SampleBankState} (h : mapGet st.registry id = some cur) :
    ∃ ns : SampleBankState,
      (updateSampleBank st id patch).1 = some ns ∧
      (updateSampleBank st id patch).2.registry = mapSet st.registry id ns ∧
      ns.status = patch.status.getD cur.status ∧
      ns.error = patch.error.spread cur.error ∧
      ns.loadedAt = (match patch.loadedAt with | some t => some t | none => cur.loadedAt) := by
  simp only [updateSampleBank, h, syncSampleBanks]
  refine ⟨_, rfl, rfl, ?_, ?_, ?_⟩ <;> (split <;> rfl)

theorem adjustSampleLoading_frame (st : EngineSt) (d : Int) :
    (adjustSampleLoading st d).registry = st.registry ∧
    (adjustSampleLoading st d).promises = st.promises ∧
    (adjustSampleLoading st d).startedLoads = st.startedLoads := by
  simp only [adjustSampleLoading]
  split
  · exact ⟨rfl, rfl, rfl⟩
  · split
    · exact ⟨rfl, rfl, rfl⟩
    · exact ⟨rfl, rfl, rfl⟩

theorem adjustSampleLoading_inc (st : EngineSt) :
    (adjustSampleLoading st 1).loadingCount = st.loadingCount + 1 := by
  have hval : ((0 : Int) ⊔ ((st.loadingCount : Int) + 1)).toNat = st.loadingCount + 1 := by
    omega
  simp only [adjustSampleLoading]
  rw [if_neg (by norm_num)]
  split
  · exact hval
  · exact hval

theorem adjustSampleLoading_dec (st : EngineSt) {c : Nat}
    (h : st.loadingCount = c + 1) :
    (adjustSampleLoading st (-1)).loadingCount = c := by
  have hval : ((0 : Int) ⊔ ((st.loadingCount : Int) + -1)).toNat = c := by
    rw [h]
    push_cast
    omega
  simp only [adjustSampleLoading]
  rw [if_neg (by norm_num)]
  split
  · exact hval
  · exact hval

theorem finallySampleBankLoad_spec (st : EngineSt) (id : String) {c : Nat}
    (h : st.loadingCount = c + 1) :
    (finallySampleBankLoad st id).loadingCount = c ∧
    (finallySampleBankLoad st id).registry = st.registry ∧
    mapGet (finallySampleBankLoad st id).promises id = none := by
  unfold finallySampleBankLoad
  refine ⟨adjustSampleLoading_dec st h, (adjustSampleLoading_frame st (-1)).1, ?_⟩
  exact mapGet_delete_self _ _

/-- C6: if the external sample-loading work succeeds, the bank's status
becomes `ready` with `loadedAt` set; if it fails, the status becomes `error`
with the failure message recorded and the error is rethrown to the caller;
in both cases the shared loading counter returns to its prior value and the
in-flight promise entry for the bank id is removed. -/
theorem performSampleBankLoad_postconditions (st : EngineSt) (bank : SampleBankState)
    (now : Nat) {cur : SampleBankState}
    (h : mapGet st.registry bank.id = some cur) :
    (∃ b', (performSampleBankLoad st bank (.ok ()) now).1 = .ok b' ∧
      mapGet (performSampleBankLoad st bank (.ok ()) now).2.registry bank.id = some b' ∧
      b'.status = .ready ∧ b'.loadedAt = some now ∧
      (performSampleBankLoad st bank (.ok ()) now).2.loadingCount = st.loadingCount ∧
      mapGet (performSampleBankLoad st bank (.ok ()) now).2.promises bank.id = none) ∧
    (∀ msg, ∃ b'', (performSampleBankLoad st bank (.error msg) now).1 = .error msg ∧
      mapGet (performSampleBankLoad st bank (.error msg) now).2.registry bank.id = some b'' ∧
      b''.status = .error ∧ b''.error = some msg ∧
      (performSampleBankLoad st bank (.error msg) now).2.loadingCount = st.loadingCount ∧
      mapGet (performSampleBankLoad st bank (.error msg) now).2.promises bank.id = none) := by
  obtain ⟨ns₁, hu1, hr1, _, _, _⟩ :=
    updateSampleBank_found st bank.id { status := some .loading, error := .undef } h
  set st₁ := (updateSampleBank st bank.id { status := some .loading, error := .undef }).2 with hst₁
  have hfr1 := updateSampleBank_frame st bank.id { status := some .loading, error := .undef }
  set st₂ := adjustSampleLoading st₁ 1 with hst₂
  have hfr2 := adjustSampleLoading_frame st₁ 1
  have hc2 : st₂.loadingCount = st.loadingCount + 1 := by
    rw [hst₂, adjustSampleLoading_inc, hfr1.2.2.2]
  have hreg2 : mapGet st₂.registry bank.id = some ns₁ := by
    rw [hfr2.1, hr1]
    exact mapGet_set_self _ _ _
  constructor
  · obtain ⟨ns₂, hu2, hr2, hs2, _, hl2⟩ :=
      updateSampleBank_found st₂ bank.id { status := some .ready, loadedAt := some now } hreg2
    have hfr3 := updateSampleBank_frame st₂ bank.id { status := some .ready, loadedAt := some now }
    have hcnt : ((updateSampleBank st₂ bank.id
        { status := some .ready, loadedAt := some now }).2).loadingCount = st.loadingCount + 1 := by
      rw [hfr3.2.2.2, hc2]
    obtain ⟨hfc, hfr, hfp⟩ := finallySampleBankLoad_spec
      ((updateSampleBank st₂ bank.id { status := some .ready, loadedAt := some now }).2)
      bank.id hcnt
    refine ⟨ns₂, ?_, ?_, hs2, hl2, ?_, ?_⟩
    · simp only [performSampleBankLoad, ← hst₁, ← hst₂, hu2]
      rfl
    · simp only [performSampleBankLoad, ← hst₁, ← hst₂]
      rw [hfr, hr2]
      exact mapGet_set_self _ _ _
    · simp only [performSampleBankLoad, ← hst₁, ← hst₂]
      exact hfc
    · simp only [performSampleBankLoad, ← hst₁, ← hst₂]
      exact hfp
  · intro msg
    obtain ⟨ns₂, hu2, hr2, hs2, he2, _⟩ :=
      updateSampleBank_found st₂ bank.id { status := some .error, error := .val msg } hreg2
    have hfr3 := updateSampleBank_frame st₂ bank.id { status := some .error, error := .val msg }
    have hcnt : ((updateSampleBank st₂ bank.id
        { status := some .error, error := .val msg }).2).loadingCount = st.loadingCount + 1 := by
      rw [hfr3.2.2.2, hc2]
    obtain ⟨hfc, hfr, hfp⟩ := finallySampleBankLoad_spec
      ((updateSampleBank st₂ bank.id { status := some .error, error := .val msg }).2)
      bank.id hcnt
    refine ⟨ns₂, ?_, ?_, hs2, he2, ?_, ?_⟩
    · simp only [performSampleBankLoad, ← hst₁, ← hst₂]
    · simp only [performSampleBankLoad, ← hst₁, ← hst₂]
      rw [hfr, hr2]
      exact mapGet_set_self _ _ _
    · simp only [performSampleBankLoad, ← hst₁, ← hst₂]
      exact hfc
    · simp only [performSampleBankLoad, ← hst₁, ← hst₂]
      exact hfp

/-- Concrete engine and bank used by the C6 witness. -/
def c6St : EngineSt := (registerSampleBank initialEngine (.str "a/kick") {}).2

def c6Bank : SampleBankState := (registerSampleBank initialEngine (.str "a/kick") {}).1

/-- Witness for C6 at a concrete registered bank. -/
theorem performSampleBankLoad_postconditions_witness :
    mapGet c6St.registry c6Bank.id = some c6Bank ∧
    ((∃ b', (performSampleBankLoad c6St c6Bank (.ok ()) 5).1 = .ok b' ∧
      mapGet (performSampleBankLoad c6St c6Bank (.ok ()) 5).2.registry c6Bank.id = some b' ∧
      b'.status = .ready ∧ b'.loadedAt = some 5 ∧
      (performSampleBankLoad c6St c6Bank (.ok ()) 5).2.loadingCount = c6St.loadingCount ∧
      mapGet (performSampleBankLoad c6St c6Bank (.ok ()) 5).2.promises c6Bank.id = none) ∧
    (∀ msg, ∃ b'', (performSampleBankLoad c6St c6Bank (.error msg) 5).1 = .error msg ∧
      mapGet (performSampleBankLoad c6St c6Bank (.error msg) 5).2.registry c6Bank.id = some b'' ∧
      b''.status = .error ∧ b''.error = some msg ∧
      (performSampleBankLoad c6St c6Bank (.error msg) 5).2.loadingCount = c6St.loadingCount ∧
      mapGet (performSampleBankLoad c6St c6Bank (.error msg) 5).2.promises c6Bank.id = none)) :=
  ⟨by decide, @performSampleBankLoad_postconditions c6St c6Bank 5 c6Bank (by decide)⟩

/- Claim C4: idempotency of registration with an unchanged source. -/

/-- The registry key written by `registerSampleBank` when no suffixing
happens: the normalised base id. -/
def registerTarget (st : EngineSt) (src : SampleBankSource) (opts : SampleBankOptions) : String :=
  normaliseSampleBankId (derivedBaseId st src opts)

theorem chooseRegisterId_fresh (st : EngineSt) (src : SampleBankSource)
    (opts : SampleBankOptions)
    (hex : mapGet st.registry (registerTarget st src opts) = none) :
    chooseRegisterId st src opts = (registerTarget st src opts, none) := by
  rw [registerTarget] at hex
  simp only [chooseRegisterId, registerTarget, hex, Bool.and_false, Bool.false_eq_true, if_false]

theorem registerSampleBank_fresh (st : EngineSt) (src : SampleBankSource)
    (opts : SampleBankOptions)
    (hex : mapGet st.registry (registerTarget st src opts) = none) :
    ∃ ns : SampleBankState,
      registerSampleBank st src opts =
        (ns, syncSampleBanks { st with registry := mapSet st.registry (registerTarget st src opts) ns }) ∧
      ns.id = registerTarget st src opts ∧ ns.source = src := by
  obtain ⟨ns, heq, hb, hc, _⟩ :=
    registerSampleBank_eq st src opts (chooseRegisterId_fresh st src opts hex)
  exact ⟨ns, heq, hb, hc⟩

theorem chooseRegisterId_same_source (st : EngineSt) (src : SampleBankSource)
    (opts : SampleBankOptions) {e : SampleBankState}
    (hid : opts.id = none)
    (hex : mapGet st.registry (registerTarget st src opts) = some e)
    (heq : jsSourceEq e.source src = true) :
    chooseRegisterId st src opts = (registerTarget st src opts, some e) := by
  rw [registerTarget] at hex
  simp only [chooseRegisterId, registerTarget, hex, hid, jsFalsyId, heq, Bool.not_true,
    Bool.and_false, Bool.false_eq_true, if_false]

theorem registerSampleBank_same_source (st : EngineSt) (src : SampleBankSource)
    (opts : SampleBankOptions) {e : SampleBankState}
    (hid : opts.id = none)
    (hex : mapGet st.registry (registerTarget st src opts) = some e)
    (heq : jsSourceEq e.source src = true) :
    ∃ ns : SampleBankState,
      registerSampleBank st src opts =
        (ns, syncSampleBanks { st with registry := mapSet st.registry (registerTarget st src opts) ns }) ∧
      ns.id = registerTarget st src opts ∧
      ns.source = src ∧ ns.status = e.status ∧ ns.error = e.error ∧
      ns.loadedAt = e.loadedAt := by
  obtain ⟨ns, ha, hb, hc, hstat, herr, hload⟩ :=
    registerSampleBank_eq st src opts (chooseRegisterId_same_source st src opts hid hex heq)
  simp only [sourceChangedFlag, heq, Bool.not_true, Bool.false_eq_true, if_false,
    Option.map_some, Option.getD_some, Option.some_bind] at hstat herr hload
  exact ⟨ns, ha, hb, hc, hstat, herr, hload⟩

theorem registerSampleBank_second_call (st : EngineSt) (src : SampleBankSource)
    (opts₂ : SampleBankOptions) (h2 : opts₂.id = none)
    (hinfer : inferSampleBankIdFromSource src ≠ "")
    {id₀ : String} {ns₁ : SampleBankState} {st₁ : EngineSt}
    (hid₀ : id₀ = normaliseSampleBankId (inferSampleBankIdFromSource src))
    (hreg₁ : st₁.registry = mapSet st.registry id₀ ns₁)
    (hnssrc : ns₁.source = src) :
    ∃ ns₂, registerSampleBank st₁ src opts₂ =
        (ns₂, syncSampleBanks { st₁ with registry := mapSet st₁.registry id₀ ns₂ }) ∧
      ns₂.id = id₀ ∧ ns₂.status = ns₁.status ∧ ns₂.error = ns₁.error ∧
      ns₂.loadedAt = ns₁.loadedAt := by
  have hbase2 : derivedBaseId st₁ src opts₂ = inferSampleBankIdFromSource src := by
    unfold derivedBaseId
    rw [h2]
    simp [hinfer]
  have htgt2 : registerTarget st₁ src opts₂ = id₀ := by
    rw [registerTarget, hbase2, ← hid₀]
  have hex2 : mapGet st₁.registry (registerTarget st₁ src opts₂) = some ns₁ := by
    rw [htgt2, hreg₁]
    exact mapGet_set_self _ _ _
  have heq2 : jsSourceEq ns₁.source src = true := by
    rw [hnssrc]
    exact jsSourceEq_refl src
  obtain ⟨ns₂, heq, hid, _, hstat, herr, hload⟩ :=
    registerSampleBank_same_source st₁ src opts₂ h2 hex2 heq2
  refine ⟨ns₂, ?_, ?_, hstat, herr, hload⟩
  · rw [heq, htgt2]
  · rw [hid, htgt2]

/-- Counterexample to C4 as universally stated: registering the same source
twice with no explicit id can create two distinct registry entries.  With
the empty-string source the derived id is empty and falls back to the
size-dependent `bank-N`; with a derived id already occupied by a
different-source entry, the suffix loop of the second call skips over the
same-source entry the first call created (it only tests existence, not
source equality) and allocates the next suffix. -/
theorem registerSampleBank_idempotent_counterexample :
    ((registerSampleBank (registerSampleBank initialEngine (.str "") {}).2 (.str "") {}).1.id ≠
      (registerSampleBank initialEngine (.str "") {}).1.id ∧
     (registerSampleBank (registerSampleBank initialEngine (.str "") {}).2
       (.str "") {}).2.registry.length = 2) ∧
    ((registerSampleBank (registerSampleBank (registerSampleBank initialEngine
        (.str "x/b") {}).2 (.str "y/b") {}).2 (.str "y/b") {}).1.id ≠
      (registerSampleBank (registerSampleBank initialEngine
        (.str "x/b") {}).2 (.str "y/b") {}).1.id ∧
     (registerSampleBank (registerSampleBank (registerSampleBank initialEngine
        (.str "x/b") {}).2 (.str "y/b") {}).2 (.str "y/b") {}).2.registry.length = 3) := by
  decide

/-- C4 (amended): provided the source derives a nonempty id and the registry
entry at the derived id, if any, holds the same source, `registerSampleBank`
is idempotent on id for an unchanged source: two calls with no explicit id
store a single entry under the derived id, the second call returns the same
id without growing the registry, and it preserves the entry's `status`,
`error` and `loadedAt`. -/
theorem registerSampleBank_idempotent_same_source (st : EngineSt) (src : SampleBankSource)
    (opts₁ opts₂ : SampleBankOptions)
    (h1 : opts₁.id = none) (h2 : opts₂.id = none)
    (hinfer : inferSampleBankIdFromSource src ≠ "")
    (hclean : ((mapGet st.registry (normaliseSampleBankId (inferSampleBankIdFromSource src))).all
      (fun e => jsSourceEq e.source src)) = true) :
    (registerSampleBank st src opts₁).1.id =
      normaliseSampleBankId (inferSampleBankIdFromSource src) ∧
    (registerSampleBank (registerSampleBank st src opts₁).2 src opts₂).1.id =
      (registerSampleBank st src opts₁).1.id ∧
    (registerSampleBank (registerSampleBank st src opts₁).2 src opts₂).1.status =
      (registerSampleBank st src opts₁).1.status ∧
    (registerSampleBank (registerSampleBank st src opts₁).2 src opts₂).1.error =
      (registerSampleBank st src opts₁).1.error ∧
    (registerSampleBank (registerSampleBank st src opts₁).2 src opts₂).1.loadedAt =
      (registerSampleBank st src opts₁).1.loadedAt ∧
    (registerSampleBank (registerSampleBank st src opts₁).2 src opts₂).2.registry.length =
      (registerSampleBank st src opts₁).2.registry.length ∧
    mapGet (registerSampleBank (registerSampleBank st src opts₁).2 src opts₂).2.registry
      (registerSampleBank st src opts₁).1.id =
      some (registerSampleBank (registerSampleBank st src opts₁).2 src opts₂).1 := by
  have hbase1 : derivedBaseId st src opts₁ = inferSampleBankIdFromSource src := by
    unfold derivedBaseId
    rw [h1]
    simp [hinfer]
  have htgt1 : registerTarget st src opts₁ =
      normaliseSampleBankId (inferSampleBankIdFromSource src) := by
    rw [registerTarget, hbase1]
  have hmain : ∃ ns₁, registerSampleBank st src opts₁ =
      (ns₁, syncSampleBanks { st with registry := mapSet st.registry (registerTarget st src opts₁) ns₁ }) ∧
      ns₁.id = registerTarget st src opts₁ ∧ ns₁.source = src := by
    cases hc : mapGet st.registry (registerTarget st src opts₁) with
    | none =>
      obtain ⟨ns₁, ha, hb, hcs⟩ := registerSampleBank_fresh st src opts₁ hc
      exact ⟨ns₁, ha, hb, hcs⟩
    | some e =>
      have heqs : jsSourceEq e.source src = true := by
        rw [htgt1] at hc
        rw [hc] at hclean
        simpa [Option.all] using hclean
      obtain ⟨ns₁, ha, hb, hcs, _, _, _⟩ :=
        registerSampleBank_same_source st src opts₁ h1 hc heqs
      exact ⟨ns₁, ha, hb, hcs⟩
  obtain ⟨ns₁, heq₁, hnsid₁, hnssrc₁⟩ := hmain
  have hfst₁ : (registerSampleBank st src opts₁).1 = ns₁ := by rw [heq₁]
  have hreg₁ : (registerSampleBank st src opts₁).2.registry =
      mapSet st.registry (registerTarget st src opts₁) ns₁ := by rw [heq₁]; rfl
  obtain ⟨ns₂, heq₂, hid₂, hstat₂, herr₂, hload₂⟩ :=
    registerSampleBank_second_call st src opts₂ h2 hinfer rfl
      (by rw [hreg₁, htgt1]) hnssrc₁
  have hfst₂ : (registerSampleBank (registerSampleBank st src opts₁).2 src opts₂).1 = ns₂ := by
    rw [heq₂]
  have hreg₂ : (registerSampleBank (registerSampleBank st src opts₁).2 src opts₂).2.registry =
      mapSet (registerSampleBank st src opts₁).2.registry
        (normaliseSampleBankId (inferSampleBankIdFromSource src)) ns₂ := by
    rw [heq₂]
    rfl
  have hhas₁ : mapHas (registerSampleBank st src opts₁).2.registry
      (normaliseSampleBankId (inferSampleBankIdFromSource src)) = true := by
    rw [hreg₁, htgt1]
    simp [mapHas, mapGet_set_self]
  refine ⟨?_, ?_, ?_, ?_, ?_, ?_, ?_⟩
  · rw [hfst₁, hnsid₁, htgt1]
  · rw [hfst₂, hfst₁, hid₂, hnsid₁, htgt1]
  · rw [hfst₂, hfst₁, hstat₂]
  · rw [hfst₂, hfst₁, herr₂]
  · rw [hfst₂, hfst₁, hload₂]
  · rw [hreg₂]
    exact mapSet_length_of_has ns₂ hhas₁
  · rw [hreg₂, hfst₂, hfst₁, hnsid₁, htgt1]
    exact mapGet_set_self _ _ _

/-- Witness for the amended C4 at a concrete source. -/
theorem registerSampleBank_idempotent_same_source_witness :
    ((SampleBankOptions.mk none none none none none none).id = none ∧
      inferSampleBankIdFromSource (.str "a/b") ≠ "" ∧
      ((mapGet initialEngine.registry
        (normaliseSampleBankId (inferSampleBankIdFromSource (.str "a/b")))).all
        (fun e => jsSourceEq e.source (.str "a/b"))) = true) ∧
    ((registerSampleBank initialEngine (.str "a/b") {}).1.id =
      normaliseSampleBankId (inferSampleBankIdFromSource (.str "a/b")) ∧
    (registerSampleBank (registerSampleBank initialEngine (.str "a/b") {}).2
        (.str "a/b") {}).1.id =
      (registerSampleBank initialEngine (.str "a/b") {}).1.id ∧
    (registerSampleBank (registerSampleBank initialEngine (.str "a/b") {}).2
        (.str "a/b") {}).1.status =
      (registerSampleBank initialEngine (.str "a/b") {}).1.status ∧
    (registerSampleBank (registerSampleBank initialEngine (.str "a/b") {}).2
        (.str "a/b") {}).1.error =
      (registerSampleBank initialEngine (.str "a/b") {}).1.error ∧
    (registerSampleBank (registerSampleBank initialEngine (.str "a/b") {}).2
        (.str "a/b") {}).1.loadedAt =
      (registerSampleBank initialEngine (.str "a/b") {}).1.loadedAt ∧
    (registerSampleBank (registerSampleBank initialEngine (.str "a/b") {}).2
        (.str "a/b") {}).2.registry.length =
      (registerSampleBank initialEngine (.str "a/b") {}).2.registry.length ∧
    mapGet (registerSampleBank (registerSampleBank initialEngine (.str "a/b") {}).2
        (.str "a/b") {}).2.registry
      (registerSampleBank initialEngine (.str "a/b") {}).1.id =
      some (registerSampleBank (registerSampleBank initialEngine (.str "a/b") {}).2
        (.str "a/b") {}).1) :=
  ⟨⟨rfl, by decide, by decide⟩,
    registerSampleBank_idempotent_same_source initialEngine (.str "a/b") {} {}
      rfl rfl (by decide) (by decide)⟩

/- Claim C3: collision on the derived id allocates the first unused
numeric suffix and never overwrites the existing entry. -/

theorem chooseRegisterId_collision (st : EngineSt) (src : SampleBankSource)
    (opts : SampleBankOptions) {e : SampleBankState}
    (hid : opts.id = none)
    (hex : mapGet st.registry (registerTarget st src opts) = some e)
    (hne : jsSourceEq e.source src = false) :
    chooseRegisterId st src opts =
      (suffixCandidate (derivedBaseId st src opts) (findFreeSuffix st.registry (derivedBaseId st src opts)),
       mapGet st.registry (suffixCandidate (derivedBaseId st src opts) (findFreeSuffix st.registry (derivedBaseId st src opts)))) := by
  rw [registerTarget] at hex
  simp only [chooseRegisterId, hex, hid, jsFalsyId, hne, Bool.not_false, Bool.and_self,
    if_true]

theorem registerSampleBank_collision (st : EngineSt) (src : SampleBankSource)
    (opts : SampleBankOptions) {e : SampleBankState}
    (hid : opts.id = none)
    (hex : mapGet st.registry (registerTarget st src opts) = some e)
    (hne : jsSourceEq e.source src = false) :
    ∃ ns : SampleBankState,
      registerSampleBank st src opts =
        (ns, syncSampleBanks { st with registry := mapSet st.registry (suffixCandidate (derivedBaseId st src opts) (findFreeSuffix st.registry (derivedBaseId st src opts))) ns }) ∧
      ns.id = suffixCandidate (derivedBaseId st src opts)
        (findFreeSuffix st.registry (derivedBaseId st src opts)) := by
  obtain ⟨ns, ha, hb, _⟩ :=
    registerSampleBank_eq st src opts (chooseRegisterId_collision st src opts hid hex hne)
  exact ⟨ns, ha, hb⟩

/-- C3: when `registerSampleBank` is called without an explicit id and the
derived id is occupied by an entry with a different source, the call stores
the new bank under `baseId-k` for the smallest unused suffix `k ≥ 2` and the
pre-existing entry at the derived id is unchanged. -/
theorem registerSampleBank_suffix_allocation (st : EngineSt) (src : SampleBankSource)
    (opts : SampleBankOptions) {e : SampleBankState}
    (hid : opts.id = none)
    (hex : mapGet st.registry (registerTarget st src opts) = some e)
    (hne : jsSourceEq e.source src = false) :
    ∃ k, 2 ≤ k ∧
      (registerSampleBank st src opts).1.id = suffixCandidate (derivedBaseId st src opts) k ∧
      mapHas st.registry (suffixCandidate (derivedBaseId st src opts) k) = false ∧
      (∀ m, 2 ≤ m → m < k →
        mapHas st.registry (suffixCandidate (derivedBaseId st src opts) m) = true) ∧
      mapGet (registerSampleBank st src opts).2.registry (registerTarget st src opts) = some e ∧
      mapGet (registerSampleBank st src opts).2.registry
        (suffixCandidate (derivedBaseId st src opts) k) =
        some (registerSampleBank st src opts).1 := by
  obtain ⟨ns, heq, hnsid⟩ := registerSampleBank_collision st src opts hid hex hne
  obtain ⟨hk2, hkfree, hkmin⟩ := findFreeSuffix_spec st.registry (derivedBaseId st src opts)
  have hfst : (registerSampleBank st src opts).1 = ns := by rw [heq]
  have hreg : (registerSampleBank st src opts).2.registry =
      mapSet st.registry (suffixCandidate (derivedBaseId st src opts)
        (findFreeSuffix st.registry (derivedBaseId st src opts))) ns := by
    rw [heq]
    rfl
  have hdiff : registerTarget st src opts ≠
      suffixCandidate (derivedBaseId st src opts)
        (findFreeSuffix st.registry (derivedBaseId st src opts)) := by
    intro hcontra
    rw [← hcontra] at hkfree
    rw [mapHas, hex] at hkfree
    simp at hkfree
  refine ⟨findFreeSuffix st.registry (derivedBaseId st src opts), hk2, ?_, hkfree, hkmin, ?_, ?_⟩
  · rw [hfst, hnsid]
  · rw [hreg, mapGet_set_ne _ _ hdiff]
    exact hex
  · rw [hreg, hfst]
    exact mapGet_set_self _ _ _

/-- Concrete pre-existing entry for the C3 witness. -/
def c3Bank : SampleBankState := (registerSampleBank initialEngine (.str "a/b") {}).1

/-- Concrete engine for the C3 witness: `"a/b"` is registered under the
derived id `"b"`, so registering a different source that also derives `"b"`
must suffix. -/
def c3St : EngineSt := (registerSampleBank initialEngine (.str "a/b") {}).2

/-- Witness for C3 at a concrete colliding registration. -/
theorem registerSampleBank_suffix_allocation_witness :
    ((SampleBankOptions.mk none none none none none none).id = none ∧
      mapGet c3St.registry (registerTarget c3St (.str "c/b") {}) = some c3Bank ∧
      jsSourceEq c3Bank.source (.str "c/b") = false) ∧
    (∃ k, 2 ≤ k ∧
      (registerSampleBank c3St (.str "c/b") {}).1.id =
        suffixCandidate (derivedBaseId c3St (.str "c/b") {}) k ∧
      mapHas c3St.registry (suffixCandidate (derivedBaseId c3St (.str "c/b") {}) k) = false ∧
      (∀ m, 2 ≤ m → m < k →
        mapHas c3St.registry (suffixCandidate (derivedBaseId c3St (.str "c/b") {}) m) = true) ∧
      mapGet (registerSampleBank c3St (.str "c/b") {}).2.registry
        (registerTarget c3St (.str "c/b") {}) = some c3Bank ∧
      mapGet (registerSampleBank c3St (.str "c/b") {}).2.registry
        (suffixCandidate (derivedBaseId c3St (.str "c/b") {}) k) =
        some (registerSampleBank c3St (.str "c/b") {}).1) :=
  ⟨⟨rfl, by decide, by decide⟩,
    @registerSampleBank_suffix_allocation c3St (.str "c/b") {} c3Bank
      rfl (by decide) (by decide)⟩

/-
Remote tree fetch (`sample-pack.ts`): error taxonomy of
`fetchGithubTreeEntries`. The HTTP response is modelled by its status code
and by whether the parsed JSON body carried a `tree` array; the awaited
fetch is resolved, so the function maps the received response to its
result, a thrown `Error` becoming `.error` of its message.
-/

/-- Entry of the GitHub git/trees API response: path, blob/tree type and
optional size. -/
structure GithubTreeEntry where
  path : String
  isBlob : Bool
  size : Option Nat
deriving DecidableEq

/-- HTTP response to the tree request: its status code and the `tree` field
of the parsed JSON body (`none` when the body lacks the expected array). -/
structure TreeResponse where
  status : Nat
  tree : Option (List GithubTreeEntry)
deriving DecidableEq

/-- Fetch-API `Response.ok`: status in the inclusive range 200..299. -/
def responseOk (status : Nat) : Bool :=
  decide (200 ≤ status) && decide (status ≤ 299)

/-- Message thrown on HTTP 403. -/
def rateLimitMsg : String :=
  "GitHub rate limit reached (403). Please wait a few minutes and try again."

/-- Message thrown on any other non-ok status; interpolates the status code. -/
def treeFailMsg (status : Nat) : String :=
  "Failed to load repository tree (" ++ (decimalString status ++ ")")

/-- Message thrown when the body's `tree` field is not an array. -/
def treeShapeMsg : String :=
  "Unexpected response from GitHub tree API"

/-- Model of `fetchGithubTreeEntries`, applied to the response the fetch
resolved with. -/
def fetchGithubTreeEntries (r : TreeResponse) : Except String (List GithubTreeEntry) :=
  if r.status == 403 then .error rateLimitMsg
  else if !responseOk r.status then .error (treeFailMsg r.status)
  else
    match r.tree with
    | some t => .ok t
    | none => .error treeShapeMsg

theorem decimalString_data (n : Nat) : (decimalString n).data = decimalRepr n := rfl

theorem treeFailMsg_head (s : Nat) : (treeFailMsg s).data.head? = some 'F' := by
  rw [treeFailMsg, string_data_append]
  rfl

theorem treeFailMsg_inj {a b : Nat} (h : treeFailMsg a = treeFailMsg b) : a = b := by
  have hd := congrArg String.data h
  rw [treeFailMsg, treeFailMsg, string_data_append, string_data_append,
    string_data_append, string_data_append, decimalString_data, decimalString_data] at hd
  exact decimalRepr_injective (List.append_cancel_right (List.append_cancel_left hd))

/-- C8: remote tree fetch error taxonomy. An HTTP 403 response throws the
rate-limit error; any other non-2xx status throws the generic fetch failure
carrying that status code; a 2xx response whose body lacks the tree array
throws the protocol error (and one with the array succeeds). The three
messages are pairwise distinct for every status, and the generic failure
message determines the status code it carries. -/
theorem fetchGithubTreeEntries_error_taxonomy (r : TreeResponse) :
    (r.status = 403 → fetchGithubTreeEntries r = .error rateLimitMsg) ∧
    (r.status ≠ 403 → responseOk r.status = false →
      fetchGithubTreeEntries r = .error (treeFailMsg r.status)) ∧
    (responseOk r.status = true → r.tree = none →
      fetchGithubTreeEntries r = .error treeShapeMsg) ∧
    (responseOk r.status = true → ∀ t, r.tree = some t →
      fetchGithubTreeEntries r = .ok t) ∧
    (∀ s, rateLimitMsg ≠ treeFailMsg s) ∧
    rateLimitMsg ≠ treeShapeMsg ∧
    (∀ s, treeFailMsg s ≠ treeShapeMsg) ∧
    (∀ s t, treeFailMsg s = treeFailMsg t → s = t) := by
  refine ⟨?_, ?_, ?_, ?_, ?_, ?_, ?_, ?_⟩
  · intro h
    simp [fetchGithubTreeEntries, h]
  · intro h1 h2
    simp [fetchGithubTreeEntries, h1, h2]
  · intro h1 h2
    have hne : r.status ≠ 403 := by
      intro hq
      rw [hq] at h1
      exact absurd h1 (by decide)
    simp [fetchGithubTreeEntries, hne, h1, h2]
  · intro h1 t h2
    have hne : r.status ≠ 403 := by
      intro hq
      rw [hq] at h1
      exact absurd h1 (by decide)
    simp [fetchGithubTreeEntries, hne, h1, h2]
  · intro s h
    have hh : rateLimitMsg.data.head? = (treeFailMsg s).data.head? :=
      congrArg (fun t : String => t.data.head?) h
    rw [treeFailMsg_head] at hh
    have hg : rateLimitMsg.data.head? = some 'G' := rfl
    rw [hg] at hh
    exact absurd (Option.some.inj hh) (by decide)
  · decide
  · intro s h
    have hh : (treeFailMsg s).data.head? = treeShapeMsg.data.head? :=
      congrArg (fun t : String => t.data.head?) h
    rw [treeFailMsg_head] at hh
    have hu : treeShapeMsg.data.head? = some 'U' := rfl
    rw [hu] at hh
    exact absurd (Option.some.inj hh) (by decide)
  · intro s t h
    exact treeFailMsg_inj h

/-- Witness for C8 at concrete responses: a 403, a 500, a 2xx body without a
tree array, and a 2xx body with one. -/
theorem fetchGithubTreeEntries_error_taxonomy_witness :
    fetchGithubTreeEntries (TreeResponse.mk 403 (some [])) = .error rateLimitMsg ∧
    fetchGithubTreeEntries (TreeResponse.mk 500 (some [])) = .error (treeFailMsg 500) ∧
    fetchGithubTreeEntries (TreeResponse.mk 200 none) = .error treeShapeMsg ∧
    fetchGithubTreeEntries (TreeResponse.mk 200 (some [])) = .ok [] :=
  ⟨(fetchGithubTreeEntries_error_taxonomy ⟨403, some []⟩).1 rfl,
   (fetchGithubTreeEntries_error_taxonomy ⟨500, some []⟩).2.1 (by decide) (by decide),
   (fetchGithubTreeEntries_error_taxonomy ⟨200, none⟩).2.2.1 (by decide) rfl,
   (fetchGithubTreeEntries_error_taxonomy ⟨200, some []⟩).2.2.2.1 (by decide) [] rfl⟩

/-
Audio routing patch (`patchAudioRouting`): the method replaces the global
`AudioNode.prototype.connect`, but its only-once guard is the private
per-instance field `audioRoutingPatched` (plus the presence of the
instance's `audioSplitterGain` node and of the audio context). The process
is modelled as a list of engine instances together with the number of times
the prototype method has been wrapped, which is process-wide state.
-/

/-- Per-instance patching state of one engine: whether its
`audioSplitterGain` node is set, and its `audioRoutingPatched` flag. -/
structure PatchInstance where
  audioSplitterGain : Bool
  audioRoutingPatched : Bool
deriving DecidableEq

/-- Process state: the engine instances, the number of times
`AudioNode.prototype.connect` has been wrapped so far (process-wide), and
whether `getAudioContext()` returns a context. -/
structure PatchSystem where
  instances : List PatchInstance
  connectPatchCount : Nat
  ctxAvailable : Bool
deriving DecidableEq

/-- `patchAudioRouting` invoked on instance `i`: returns early when the
instance is already patched, has no splitter, or no audio context is
available; otherwise wraps the prototype `connect` once more and sets the
instance's flag. -/
def patchAudioRouting (sys : PatchSystem) (i : Nat) : PatchSystem :=
  match sys.instances[i]? with
  | none => sys
  | some inst =>
    if inst.audioRoutingPatched then sys
    else if !inst.audioSplitterGain then sys
    else if !sys.ctxAvailable then sys
    else
      { sys with
        instances := sys.instances.set i { inst with audioRoutingPatched := true },
        connectPatchCount := sys.connectPatchCount + 1 }

/-- Fresh process: one unpatched instance per splitter flag, the prototype
method not yet wrapped. -/
def mkPatchSystem (splitters : List Bool) (ctx : Bool) : PatchSystem :=
  { instances := splitters.map (fun s => { audioSplitterGain := s, audioRoutingPatched := false }),
    connectPatchCount := 0,
    ctxAvailable := ctx }

/-- A sequence of `patchAudioRouting` calls, by instance index, in order. -/
def applyPatchCalls (sys : PatchSystem) (calls : List Nat) : PatchSystem :=
  calls.foldl patchAudioRouting sys

theorem countP_set_succ {α : Type} (p : α → Bool) :
    ∀ (l : List α) (i : Nat) (a v : α), l[i]? = some a → p a = false → p v = true →
      (l.set i v).countP p = l.countP p + 1 := by
  intro l
  induction l with
  | nil =>
    intro i a v h _ _
    simp at h
  | cons x xs ih =>
    intro i a v h ha hv
    cases i with
    | zero =>
      simp at h
      subst h
      simp [List.countP_cons, ha, hv]
    | succ n =>
      simp at h
      simp only [List.set_cons_succ, List.countP_cons, ih n a v h ha hv]
      omega

theorem patchAudioRouting_none (sys : PatchSystem) (i : Nat)
    (hg : sys.instances[i]? = none) : patchAudioRouting sys i = sys := by
  simp [patchAudioRouting, hg]

theorem patchAudioRouting_skip (sys : PatchSystem) (i : Nat) {inst : PatchInstance}
    (hg : sys.instances[i]? = some inst)
    (h : inst.audioRoutingPatched = true ∨ inst.audioSplitterGain = false ∨
      sys.ctxAvailable = false) :
    patchAudioRouting sys i = sys := by
  rcases h with h | h | h <;> simp [patchAudioRouting, hg, h]

theorem patchAudioRouting_patch (sys : PatchSystem) (i : Nat) {inst : PatchInstance}
    (hg : sys.instances[i]? = some inst)
    (h1 : inst.audioRoutingPatched = false) (h2 : inst.audioSplitterGain = true)
    (h3 : sys.ctxAvailable = true) :
    patchAudioRouting sys i =
      { sys with
        instances := sys.instances.set i { inst with audioRoutingPatched := true },
        connectPatchCount := sys.connectPatchCount + 1 } := by
  simp [patchAudioRouting, hg, h1, h2, h3]

theorem patchAudioRouting_idem (sys : PatchSystem) (i : Nat) :
    patchAudioRouting (patchAudioRouting sys i) i = patchAudioRouting sys i := by
  cases hg : sys.instances[i]? with
  | none =>
    rw [patchAudioRouting_none sys i hg, patchAudioRouting_none sys i hg]
  | some inst =>
    by_cases hp : inst.audioRoutingPatched = true
    · rw [patchAudioRouting_skip sys i hg (Or.inl hp), patchAudioRouting_skip sys i hg (Or.inl hp)]
    · by_cases hs : inst.audioSplitterGain = true
      · by_cases hc : sys.ctxAvailable = true
        · have hp' : inst.audioRoutingPatched = false := by
            cases hb : inst.audioRoutingPatched
            · rfl
            · exact absurd hb hp
          rw [patchAudioRouting_patch sys i hg hp' hs hc]
          have hlt : i < sys.instances.length := by
            have := List.getElem?_eq_some_iff.mp hg
            exact this.1
          have hg2 : (sys.instances.set i { inst with audioRoutingPatched := true })[i]? =
              some { inst with audioRoutingPatched := true } := by
            rw [List.getElem?_set_self]
            · simp [hlt]
          exact patchAudioRouting_skip _ i hg2 (Or.inl rfl)
        · have hc' : sys.ctxAvailable = false := by
            cases hb : sys.ctxAvailable
            · rfl
            · exact absurd hb hc
          rw [patchAudioRouting_skip sys i hg (Or.inr (Or.inr hc')),
            patchAudioRouting_skip sys i hg (Or.inr (Or.inr hc'))]
      · have hs' : inst.audioSplitterGain = false := by
          cases hb : inst.audioSplitterGain
          · rfl
          · exact absurd hb hs
        rw [patchAudioRouting_skip sys i hg (Or.inr (Or.inl hs')),
          patchAudioRouting_skip sys i hg (Or.inr (Or.inl hs'))]

theorem patchAudioRouting_inv (sys : PatchSystem) (i : Nat)
    (h : sys.connectPatchCount = sys.instances.countP (fun e => e.audioRoutingPatched)) :
    (patchAudioRouting sys i).connectPatchCount =
      (patchAudioRouting sys i).instances.countP (fun e => e.audioRoutingPatched) ∧
    (patchAudioRouting sys i).instances.length = sys.instances.length := by
  cases hg : sys.instances[i]? with
  | none =>
    rw [patchAudioRouting_none sys i hg]
    exact ⟨h, rfl⟩
  | some inst =>
    by_cases hp : inst.audioRoutingPatched = true
    · rw [patchAudioRouting_skip sys i hg (Or.inl hp)]
      exact ⟨h, rfl⟩
    · by_cases hs : inst.audioSplitterGain = true
      · by_cases hc : sys.ctxAvailable = true
        · have hp' : inst.audioRoutingPatched = false := by
            cases hb : inst.audioRoutingPatched
            · rfl
            · exact absurd hb hp
          rw [patchAudioRouting_patch sys i hg hp' hs hc]
          constructor
          · rw [countP_set_succ (fun e => e.audioRoutingPatched) sys.instances i inst
              { inst with audioRoutingPatched := true } hg hp' rfl, h]
          · exact List.length_set _ _ _
        · have hc' : sys.ctxAvailable = false := by
            cases hb : sys.ctxAvailable
            · rfl
            · exact absurd hb hc
          rw [patchAudioRouting_skip sys i hg (Or.inr (Or.inr hc'))]
          exact ⟨h, rfl⟩
      · have hs' : inst.audioSplitterGain = false := by
          cases hb : inst.audioSplitterGain
          · rfl
          · exact absurd hb hs
        rw [patchAudioRouting_skip sys i hg (Or.inr (Or.inl hs'))]
        exact ⟨h, rfl⟩

theorem applyPatchCalls_inv (calls : List Nat) :
    ∀ sys : PatchSystem,
      sys.connectPatchCount = sys.instances.countP (fun e => e.audioRoutingPatched) →
      (applyPatchCalls sys calls).connectPatchCount =
        (applyPatchCalls sys calls).instances.countP (fun e => e.audioRoutingPatched) ∧
      (applyPatchCalls sys calls).instances.length = sys.instances.length := by
  induction calls with
  | nil =>
    intro sys h
    exact ⟨h, rfl⟩
  | cons c cs ih =>
    intro sys h
    have hstep := patchAudioRouting_inv sys c h
    have hrest := ih (patchAudioRouting sys c) hstep.1
    simp only [applyPatchCalls, List.foldl_cons] at hrest ⊢
    exact ⟨hrest.1, hrest.2.trans hstep.2⟩

/-- Counterexample refuting C9 as stated: two engine instances, each with a
splitter and an available audio context, each run their own
`patchAudioRouting`; the prototype `connect` method ends up wrapped twice in
one process, since the guard flag is per instance. -/
theorem audio_patch_once_counterexample :
    ¬ (applyPatchCalls (mkPatchSystem [true, true] true) [0, 1]).connectPatchCount ≤ 1 := by
  decide

/-- C9 (amended): the audio-destination-connection patch is applied at most
once per engine instance, not once per process: `patchAudioRouting` is
idempotent on each instance, and after any sequence of calls from a fresh
process the number of times the prototype `connect` was wrapped equals the
number of instances whose flag is set, hence never exceeds the number of
instances — but with several instances it can exceed one, as the
counterexample shows. -/
theorem patchAudioRouting_once_per_instance (splitters : List Bool) (ctx : Bool)
    (calls : List Nat) :
    (∀ (sys : PatchSystem) (i : Nat),
      patchAudioRouting (patchAudioRouting sys i) i = patchAudioRouting sys i) ∧
    (applyPatchCalls (mkPatchSystem splitters ctx) calls).connectPatchCount =
      (applyPatchCalls (mkPatchSystem splitters ctx) calls).instances.countP
        (fun e => e.audioRoutingPatched) ∧
    (applyPatchCalls (mkPatchSystem splitters ctx) calls).connectPatchCount ≤
      splitters.length := by
  have h0 : (mkPatchSystem splitters ctx).connectPatchCount =
      (mkPatchSystem splitters ctx).instances.countP (fun e => e.audioRoutingPatched) := by
    simp only [mkPatchSystem, List.countP_map]
    refine (List.countP_eq_zero.mpr ?_).symm
    intro a _
    simp [Function.comp]
  have hinv := applyPatchCalls_inv calls (mkPatchSystem splitters ctx) h0
  refine ⟨patchAudioRouting_idem, hinv.1, ?_⟩
  have hlen : (applyPatchCalls (mkPatchSystem splitters ctx) calls).instances.length =
      splitters.length := by
    rw [hinv.2]
    simp [mkPatchSystem]
  calc (applyPatchCalls (mkPatchSystem splitters ctx) calls).connectPatchCount
      = (applyPatchCalls (mkPatchSystem splitters ctx) calls).instances.countP
        (fun e => e.audioRoutingPatched) := hinv.1
    _ ≤ (applyPatchCalls (mkPatchSystem splitters ctx) calls).instances.length :=
        List.countP_le_length _
    _ = splitters.length := hlen
